import Mathlib

/-!
# uppi-server-agent: the self-update subsystem

A shallow embedding of `internal/updater/updater.go` (and of the parts of
`cmd/uppi-agent/main.go` and `internal/config/config.go` it touches).

* Go strings are modelled as lists of characters (`GoString`).
* The filesystem is a finite map from paths to files (content bytes and
  permission bits); every system call that can fail takes its outcome from an
  explicit environment record, so the embedded functions are total and
  executable.
* Logging, process spawning and exit scheduling are recorded as a list of
  events.
-/

namespace Uppi

/-! ## Strings -/

/-- A Go string, as its sequence of characters. -/
abbrev GoString := List Char

/-- Go `strings.HasPrefix(s, prefix)`. -/
def hasPrefix : GoString → GoString → Bool
  | _, [] => true
  | [], _ :: _ => false
  | c :: s, d :: p => c == d && hasPrefix s p

/-- Go `strings.TrimPrefix(s, prefix)`: `s` without the leading `prefix`
when `s` starts with it, `s` unchanged otherwise. -/
def trimPrefix (s pre : GoString) : GoString :=
  if hasPrefix s pre then s.drop pre.length else s

/-- The function `isNewerVersion` of `updater.go`. -/
def isNewerVersion (latest current : GoString) : Bool :=
  let latest := trimPrefix latest "v".toList
  let current := trimPrefix current "v".toList
  latest != current

/-- Normalisation of a tag as the specification words it: a single optional
leading `v` is stripped. -/
def normalizeTag : GoString → GoString
  | 'v' :: rest => rest
  | tag => tag

/-! ## Releases and artifact selection -/

/-- One element of `GitHubRelease.Assets`. -/
structure Asset where
  Name : GoString
  BrowserDownloadURL : GoString
deriving DecidableEq, Repr

/-- The struct `GitHubRelease` of `updater.go`. -/
structure GitHubRelease where
  TagName : GoString
  Assets : List Asset
deriving DecidableEq, Repr

/-- The value of `fmt.Sprintf("uppi-agent-%s-%s", goos, arch)`. -/
def assetNameFor (goos arch : GoString) : GoString :=
  "uppi-agent-".toList ++ goos ++ "-".toList ++ arch

/-- The selection loop of `performUpdate`: `downloadURL` starts empty and is
set from the first asset, in list order, whose name equals `assetName`; the
loop then breaks. -/
def selectDownloadURL (assetName : GoString) : List Asset → GoString
  | [] => []
  | asset :: rest =>
    if asset.Name = assetName then asset.BrowserDownloadURL
    else selectDownloadURL assetName rest

/-! ## The filesystem -/

/-- A filesystem path. -/
abbrev Path := GoString

/-- File contents. -/
abbrev Bytes := List Nat

/-- A regular file: its bytes and its permission bits. -/
structure File where
  content : Bytes
  mode : Nat
deriving DecidableEq, Repr

/-- The filesystem: which file, if any, each path names. -/
abbrev FS := Path → Option File

/-- The filesystem with path `p` rebound to `f`. -/
def FS.set (fs : FS) (p : Path) (f : Option File) : FS :=
  fun q => if q = p then f else fs q

/-- Permission bits of a file newly made by `os.Create` (0666 before umask). -/
def createMode (umask : Nat) : Nat := 0o666 &&& (0o777 ^^^ (umask &&& 0o777))

/-- Go `os.Open(p)`: succeeds when the call is not faulted and `p` exists. -/
def osOpen (ok : Bool) (fs : FS) (p : Path) : Bool :=
  ok && (fs p).isSome

/-- Go `os.Create(p)` (`O_RDWR|O_CREATE|O_TRUNC`, 0666): an existing file is
truncated in place and keeps its mode, a missing one is created empty. A
faulted call changes nothing. -/
def osCreate (ok : Bool) (umask : Nat) (fs : FS) (p : Path) : Option FS :=
  if ok then
    match fs p with
    | some f => some (fs.set p (some { f with content := [] }))
    | none => some (fs.set p (some { content := [], mode := createMode umask }))
  else none

/-- The write side of `io.Copy` into the open file at `p`: the bytes written
so far become the content at `p` (when `p` still names a file). -/
def writeBytes (fs : FS) (p : Path) (written : Bytes) : FS :=
  match fs p with
  | some f => fs.set p (some { f with content := written })
  | none => fs

/-- Go `os.Stat(p).Mode()`. -/
def osStat (ok : Bool) (fs : FS) (p : Path) : Option Nat :=
  if ok then (fs p).map File.mode else none

/-- Go `os.Chmod(p, mode)`. -/
def osChmod (ok : Bool) (fs : FS) (p : Path) (mode : Nat) : Option FS :=
  if ok then
    match fs p with
    | some f => some (fs.set p (some { f with mode := mode }))
    | none => none
  else none

/-- Go `os.Remove(p)`. -/
def osRemove (ok : Bool) (fs : FS) (p : Path) : Option FS :=
  if ok then
    match fs p with
    | some _ => some (fs.set p none)
    | none => none
  else none

/-- Outcomes of the system calls of one `copyFile` run. `copyFail = some k`
makes `io.Copy` return an error after `k` bytes have been written. -/
structure CopyFaults where
  openOk : Bool
  createOk : Bool
  copyFail : Option Nat
  statOk : Bool
  chmodOk : Bool
deriving DecidableEq, Repr

/-- The call of `copyFile` that returned the error. -/
inductive CopyErr
  | openSrc
  | createDst
  | copy
  | statSrc
  | chmodDst
deriving DecidableEq, Repr

/-- The bytes `io.Copy` reads from the open source file. -/
def readAll (fs : FS) (src : Path) : Bytes :=
  match fs src with
  | some f => f.content
  | none => []

/-- The function `copyFile` of `updater.go`: open `src`, `os.Create` `dst`,
`io.Copy`, `os.Stat(src)`, `os.Chmod(dst, mode)`; the first failing call
ends it. Returns the filesystem left behind and the error (`none` for nil). -/
def copyFile (umask : Nat) (f : CopyFaults) (fs : FS) (src dst : Path) :
    FS × Option CopyErr :=
  if osOpen f.openOk fs src then
    match osCreate f.createOk umask fs dst with
    | none => (fs, some .createDst)
    | some fs1 =>
      match f.copyFail with
      | some k => (writeBytes fs1 dst ((readAll fs1 src).take k), some .copy)
      | none =>
        let fs2 := writeBytes fs1 dst (readAll fs1 src)
        match osStat f.statOk fs2 src with
        | none => (fs2, some .statSrc)
        | some mode =>
          match osChmod f.chmodOk fs2 dst mode with
          | none => (fs2, some .chmodDst)
          | some fs3 => (fs3, none)
  else (fs, some .openSrc)

/-- The states the filesystem passes through during `copyFile`: the state on
entry, then the state after each state-changing call that completed
(`os.Create`, `io.Copy`, `os.Chmod`). A failing `io.Copy` still leaves the
bytes it wrote. -/
def copyFileStates (umask : Nat) (f : CopyFaults) (fs : FS) (src dst : Path) :
    List FS :=
  if osOpen f.openOk fs src then
    match osCreate f.createOk umask fs dst with
    | none => [fs]
    | some fs1 =>
      match f.copyFail with
      | some k => [fs, fs1, writeBytes fs1 dst ((readAll fs1 src).take k)]
      | none =>
        let fs2 := writeBytes fs1 dst (readAll fs1 src)
        match osStat f.statOk fs2 src with
        | none => [fs, fs1, fs2]
        | some mode =>
          match osChmod f.chmodOk fs2 dst mode with
          | none => [fs, fs1, fs2]
          | some fs3 => [fs, fs1, fs2, fs3]
  else [fs]

/-! ## The environment: network, process and fault outcomes -/

/-- Result of Go `http.Get`: a transport error, or a response with its status
code and body. -/
inductive HttpResult
  | transportError
  | response (status : Nat) (body : Bytes)
deriving DecidableEq, Repr

/-- Everything outside the program that one update check consults. -/
structure Env where
  /-- Go `runtime.GOOS`. -/
  goos : GoString
  /-- Go `runtime.GOARCH`. -/
  arch : GoString
  /-- Go `http.Get(url)`. -/
  httpGet : GoString → HttpResult
  /-- Go `json.NewDecoder(body).Decode(&release)`; `none` is a decode error. -/
  jsonDecode : Bytes → Option GitHubRelease
  /-- The process umask. -/
  umask : Nat
  /-- Outcome of `os.Create(filepath)` in `downloadFile`. -/
  downloadCreateOk : Bool
  /-- Outcome of `io.Copy(out, resp.Body)` in `downloadFile`. -/
  downloadCopyFail : Option Nat
  /-- Outcome of `os.Chmod(tempFile, 0755)`. -/
  stageChmodOk : Bool
  /-- Go `os.Executable()`; `none` is an error. -/
  executable : Option Path
  /-- Outcomes inside `copyFile(currentPath, backupPath)`. -/
  backup : CopyFaults
  /-- Outcomes inside `copyFile(tempFile, currentPath)`. -/
  replace : CopyFaults
  /-- Outcomes inside `copyFile(backupPath, currentPath)`. -/
  rollback : CopyFaults
  /-- Outcome of `os.Remove(tempFile)`. -/
  removeTempOk : Bool
  /-- Outcome of `os.Remove(backupPath)`. -/
  removeBackupOk : Bool
  /-- Go `os.Getenv`. -/
  getenv : GoString → GoString
  /-- Go `os.Getppid()`. -/
  getppid : Nat
  /-- Go `os.Args[0]`: the program name. -/
  argv0 : GoString
  /-- Go `os.Args[1:]`. -/
  argvRest : List GoString
  /-- Outcome of `exec.Command(args[0], args[1:]...).Start()`. -/
  startOk : Bool

/-- Errors of `getLatestRelease`. -/
inductive ResolveErr
  | transport
  | status (code : Nat)
  | decode
deriving DecidableEq, Repr

/-- Errors of `downloadFile`. -/
inductive DownloadErr
  | transport
  | status (code : Nat)
  | create
  | copy
deriving DecidableEq, Repr

/-- Errors returned by `performUpdate`, one per `fmt.Errorf` of the source. -/
inductive UpdateErr
  | noAsset (goos arch : GoString)
  | download (e : DownloadErr)
  | makeExecutable
  | executablePath
  | replaceBinary (e : CopyErr)
deriving DecidableEq, Repr

/-- The log lines of `updater.go`, one constructor per `log.Print*` call. -/
inductive LogLine
  | checking
  | failedCheck (e : ResolveErr)
  | newVersion (latest current : GoString)
  | failedUpdate (e : UpdateErr)
  | completedRestarting
  | alreadyLatest
  | warnBackup (e : CopyErr)
  | criticalRestore (e : CopyErr)
  | failedRestart
deriving DecidableEq, Repr

/-- What the process does to the outside world besides file operations. -/
inductive Event
  | log (line : LogLine)
  /-- An `exec.Command(name, args...).Run()`. -/
  | run (name : GoString) (args : List GoString)
  /-- An `exec.Command(name, args...).Start()`. -/
  | start (name : GoString) (args : List GoString)
  /-- The goroutine `time.Sleep(seconds); os.Exit(code)`. -/
  | scheduleExit (seconds : Nat) (code : Nat)
deriving DecidableEq, Repr

/-- Whether an event is process control (a command run or started, an exit
scheduled) rather than a log line. Only `restartAgent` produces such events. -/
def Event.isProcessControl : Event → Bool
  | .log _ => false
  | .run _ _ => true
  | .start _ _ => true
  | .scheduleExit _ _ => true

/-- The constant `config.Version`. -/
def Version : GoString := "1.0.0".toList

/-- The URL queried by `getLatestRelease`. -/
def latestReleaseURL : GoString :=
  "https://api.github.com/repos/janyksteenbeek/uppi-server-agent/releases/latest".toList

/-- The temporary download path `tempFile` of `performUpdate`. -/
def tempFile : Path := "/tmp/uppi-agent-new".toList

/-- The value `currentPath + ".backup"` of `performUpdate`. -/
def backupPathOf (currentPath : Path) : Path := currentPath ++ ".backup".toList

/-- The function `getLatestRelease` of `updater.go`. -/
def getLatestRelease (env : Env) : Except ResolveErr GitHubRelease :=
  match env.httpGet latestReleaseURL with
  | .transportError => .error .transport
  | .response status body =>
    if status ≠ 200 then .error (.status status)
    else
      match env.jsonDecode body with
      | none => .error .decode
      | some release => .ok release

/-- The function `downloadFile` of `updater.go`. -/
def downloadFile (env : Env) (url : GoString) (filepath : Path) (fs : FS) :
    FS × Option DownloadErr :=
  match env.httpGet url with
  | .transportError => (fs, some .transport)
  | .response status body =>
    if status ≠ 200 then (fs, some (.status status))
    else
      match osCreate env.downloadCreateOk env.umask fs filepath with
      | none => (fs, some .create)
      | some fs1 =>
        match env.downloadCopyFail with
        | some k => (writeBytes fs1 filepath (body.take k), some .copy)
        | none => (writeBytes fs1 filepath body, none)

/-- What one run of `performUpdate` leaves behind: the filesystem, the log
lines it printed, and the returned error (`none` for nil). -/
structure UpdateResult where
  fs : FS
  events : List Event
  err : Option UpdateErr

/-- The function `performUpdate` of `updater.go`. -/
def performUpdate (env : Env) (release : GitHubRelease) (fs : FS) : UpdateResult :=
  let assetName := assetNameFor env.goos env.arch
  let downloadURL := selectDownloadURL assetName release.Assets
  if downloadURL = [] then
    { fs := fs, events := [], err := some (.noAsset env.goos env.arch) }
  else
    match downloadFile env downloadURL tempFile fs with
    | (fs1, some e) => { fs := fs1, events := [], err := some (.download e) }
    | (fs1, none) =>
      match osChmod env.stageChmodOk fs1 tempFile 0o755 with
      | none => { fs := fs1, events := [], err := some .makeExecutable }
      | some fs2 =>
        match env.executable with
        | none => { fs := fs2, events := [], err := some .executablePath }
        | some currentPath =>
          let backupPath := backupPathOf currentPath
          let (fs3, backupRes) := copyFile env.umask env.backup fs2 currentPath backupPath
          let warn : List Event :=
            match backupRes with
            | some e => [.log (.warnBackup e)]
            | none => []
          match copyFile env.umask env.replace fs3 tempFile currentPath with
          | (fs4, some e) =>
            let (fs5, backupErr) := copyFile env.umask env.rollback fs4 backupPath currentPath
            let critical : List Event :=
              match backupErr with
              | some be => [.log (.criticalRestore be)]
              | none => []
            { fs := fs5, events := warn ++ critical, err := some (.replaceBinary e) }
          | (fs4, none) =>
            let fs5 := (osRemove env.removeTempOk fs4 tempFile).getD fs4
            let fs6 := (osRemove env.removeBackupOk fs5 backupPath).getD fs5
            { fs := fs6, events := warn, err := none }

/-- The function `isSystemdService` of `updater.go`. -/
def isSystemdService (env : Env) : Bool :=
  env.getenv "SYSTEMD_EXEC_PID".toList != [] || env.getppid == 1

/-- The function `restartAgent` of `updater.go`. -/
def restartAgent (env : Env) : List Event :=
  if isSystemdService env then
    [.run "systemctl".toList ["restart".toList, "uppi-agent".toList]]
  else
    let failed : List Event := if env.startOk then [] else [.log .failedRestart]
    [.start env.argv0 env.argvRest] ++ failed ++ [.scheduleExit 2 0]

/-- The function `CheckForUpdates` of `updater.go`: the filesystem it leaves
and the events it produced, in order. It always returns to its caller. -/
def CheckForUpdates (env : Env) (fs : FS) : FS × List Event :=
  let currentVersion := Version
  match getLatestRelease env with
  | .error e => (fs, [.log .checking, .log (.failedCheck e)])
  | .ok latestRelease =>
    if isNewerVersion latestRelease.TagName currentVersion then
      let r := performUpdate env latestRelease fs
      match r.err with
      | some e =>
        (r.fs, [.log .checking, .log (.newVersion latestRelease.TagName currentVersion)]
          ++ r.events ++ [.log (.failedUpdate e)])
      | none =>
        (r.fs, [.log .checking, .log (.newVersion latestRelease.TagName currentVersion)]
          ++ r.events ++ [.log .completedRestarting] ++ restartAgent env)
    else (fs, [.log .checking, .log .alreadyLatest])

/-! ## Substring search and splitting -/

/-- Go `strings.Index(s, substr)`: the position of the first occurrence of
`substr` in `s`; `none` stands for the result -1. -/
def stringsIndex : GoString → GoString → Option Nat
  | [], substr => if hasPrefix [] substr then some 0 else none
  | c :: rest, substr =>
    if hasPrefix (c :: rest) substr then some 0
    else (stringsIndex rest substr).map (· + 1)

/-- Go `strings.Contains(s, substr)`. -/
def stringsContains (s substr : GoString) : Bool :=
  (stringsIndex s substr).isSome

/-- Go `strings.SplitN(s, sep, 2)` for a non-empty `sep`: `s` alone when `sep`
does not occur in it, otherwise the text before the first `sep` and the
unsplit remainder after it. -/
def splitN2 (s sep : GoString) : List GoString :=
  match stringsIndex s sep with
  | none => [s]
  | some m => [s.take m, s.drop (m + sep.length)]

/-! ## The main IP address (`collector.go`) -/

/-- One element of `InterfaceStat.Addrs` (gopsutil `net.InterfaceAddr`). -/
structure InterfaceAddr where
  Addr : GoString
deriving DecidableEq, Repr

/-- The fields of gopsutil `net.InterfaceStat` that `getMainIPAddress` reads. -/
structure InterfaceStat where
  Name : GoString
  Addrs : List InterfaceAddr
deriving DecidableEq, Repr

/-- The address as `getMainIPAddress` looks at it: cut at the first "/" when
there is one (`ip = ip[:idx]`). -/
def stripCIDR (ip : GoString) : GoString :=
  match stringsIndex ip "/".toList with
  | some idx => ip.take idx
  | none => ip

/-- The inner loop of `getMainIPAddress` over one interface's addresses:
`some ip` when the loop returns `ip`, `none` when it runs to its end. -/
def firstAddress : List InterfaceAddr → Option GoString
  | [] => none
  | addr :: rest =>
    let ip := stripCIDR addr.Addr
    if stringsContains ip ":".toList || ip == "127.0.0.1".toList then firstAddress rest
    else if ip != [] then some ip
    else firstAddress rest

/-- The outer loop of `getMainIPAddress` over the interfaces; the empty string
when it runs to its end. -/
def scanInterfaces : List InterfaceStat → GoString
  | [] => []
  | iface :: rest =>
    if iface.Name == "lo".toList || iface.Addrs.length == 0 then scanInterfaces rest
    else
      match firstAddress iface.Addrs with
      | some ip => ip
      | none => scanInterfaces rest

/-- The function `getMainIPAddress` of `collector.go`; its argument is the
result of `net.Interfaces()`, `none` being an error. -/
def getMainIPAddress (interfaces : Option (List InterfaceStat)) : GoString :=
  match interfaces with
  | none => []
  | some ifaces => scanInterfaces ifaces

/-- An IPv4 loopback address in dotted form: one of the block 127.0.0.0/8. -/
def isLoopbackIPv4 (ip : GoString) : Bool :=
  hasPrefix ip "127.".toList

/-- The test an address, cut at its "/", must pass for `getMainIPAddress` to
return it: no ":" in it, not the text "127.0.0.1", not empty. -/
def acceptsAddress (ip : GoString) : Bool :=
  !(stringsContains ip ":".toList || ip == "127.0.0.1".toList) && ip != []

/-- The addresses `getMainIPAddress` looks at, each cut at its "/", in
interface order and then address order, those of interfaces named "lo" left
out. -/
def candidateAddresses : List InterfaceStat → List GoString
  | [] => []
  | iface :: rest =>
    if iface.Name == "lo".toList then candidateAddresses rest
    else iface.Addrs.map (fun a => stripCIDR a.Addr) ++ candidateAddresses rest

/-! ## Token parsing (`cmd/uppi-agent/main.go`) -/

/-- The `log.Fatal` calls of the command's `Run` function. -/
inductive FatalMsg
  | tokenFormat
  | emptyServerId
  | emptySecret
deriving DecidableEq, Repr

/-- How the command's `Run` function ends: with a `log.Fatal`, or by calling
`runDaemon` with the given `ServerId` and `Secret` in the configuration. -/
inductive RunOutcome
  | fatal (msg : FatalMsg)
  | runDaemon (ServerId Secret : GoString)
deriving DecidableEq, Repr

/-- The `Run` function of `rootCmd` in `main.go`, on `token = args[0]`. -/
def rootCmdRun (token : GoString) : RunOutcome :=
  let parts := splitN2 token ":".toList
  if parts.length ≠ 2 then .fatal .tokenFormat
  else
    let serverId := parts.getD 0 []
    let secret := parts.getD 1 []
    if serverId = [] then .fatal .emptyServerId
    else if secret = [] then .fatal .emptySecret
    else .runDaemon serverId secret

/-! ## Sample hosts and filesystems

Concrete inputs on which the theorems below are evaluated. -/

/-- A `copyFile` run in which every call succeeds. -/
def noFaults : CopyFaults :=
  { openOk := true, createOk := true, copyFail := none, statOk := true, chmodOk := true }

/-- The asset name on linux/amd64. -/
def linuxAmd64 : GoString := assetNameFor "linux".toList "amd64".toList

/-- A release `v1.0.1` with one linux/amd64 asset. -/
def sampleRelease : GitHubRelease :=
  { TagName := "v1.0.1".toList
    Assets := [{ Name := linuxAmd64, BrowserDownloadURL := "https://dl/agent".toList }] }

/-- Where the sample agent is installed. -/
def samplePath : Path := "/usr/bin/uppi-agent".toList

/-- A filesystem holding only the running agent, bytes 1 2 3, mode 0755. -/
def sampleFS : FS :=
  fun p => if p = samplePath then some { content := [1, 2, 3], mode := 0o755 } else none

/-- The sample filesystem with a backup file left over from an earlier run. -/
def staleFS : FS :=
  fun p => if p = backupPathOf samplePath then some { content := [9, 9], mode := 0o755 }
    else sampleFS p

/-- A linux/amd64 host on which the release index answers with
`sampleRelease`, the download yields bytes 4 5 6 7, and every call succeeds;
the agent is not run by systemd. -/
def sampleEnv : Env :=
  { goos := "linux".toList
    arch := "amd64".toList
    httpGet := fun url =>
      if url = latestReleaseURL then .response 200 [0]
      else if url = "https://dl/agent".toList then .response 200 [4, 5, 6, 7]
      else .response 404 []
    jsonDecode := fun _ => some sampleRelease
    umask := 0o022
    downloadCreateOk := true
    downloadCopyFail := none
    stageChmodOk := true
    executable := some samplePath
    backup := noFaults
    replace := noFaults
    rollback := noFaults
    removeTempOk := true
    removeBackupOk := true
    getenv := fun _ => []
    getppid := 4242
    argv0 := samplePath
    argvRest := ["1:secret".toList]
    startOk := true }

/-- A host like `sampleEnv` on which the Replace copy fails after two bytes
and the rollback copy cannot create the destination. -/
def rollbackFailsEnv : Env :=
  { sampleEnv with
    replace := { noFaults with copyFail := some 2 }
    rollback := { noFaults with createOk := false } }

/-- A host like `sampleEnv` on which the Replace copy fails after two bytes
and the rollback copy succeeds. -/
def midCopyEnv : Env :=
  { sampleEnv with replace := { noFaults with copyFail := some 2 } }

/-- A host like `sampleEnv` on which the Backup copy cannot create its
destination, the Replace copy fails after two bytes, and the rollback copy
succeeds. -/
def backupFailsEnv : Env :=
  { sampleEnv with
    backup := { noFaults with createOk := false }
    replace := { noFaults with copyFail := some 2 } }

/-- A host like `sampleEnv` on which the Backup copy itself fails after one
byte, the Replace copy fails after two bytes, and the rollback copy
succeeds. -/
def backupTornEnv : Env :=
  { sampleEnv with
    backup := { noFaults with copyFail := some 1 }
    replace := { noFaults with copyFail := some 2 } }

/-- The sample filesystem as the Replace step finds it: the download staged
at `T` (bytes 4 5 6 7), the old agent at `L` and its copy at `B`. -/
def replaceFS : FS :=
  fun p =>
    if p = tempFile then some { content := [4, 5, 6, 7], mode := 0o755 }
    else if p = backupPathOf samplePath then some { content := [1, 2, 3], mode := 0o755 }
    else sampleFS p

/-- A host like `sampleEnv` on which the Backup copy cannot create its
destination and everything else succeeds. -/
def noBackupEnv : Env :=
  { sampleEnv with backup := { noFaults with createOk := false } }

/-- A host like `sampleEnv` (no `SYSTEMD_EXEC_PID` in the environment) whose
agent process is a child of process 1. -/
def initChildEnv : Env :=
  { sampleEnv with getppid := 1 }

/-- A host like `sampleEnv` with `SYSTEMD_EXEC_PID` set. -/
def systemdEnv : Env :=
  { sampleEnv with
    getenv := fun name => if name = "SYSTEMD_EXEC_PID".toList then "812".toList else [] }

/-- A host like `sampleEnv` on which the downloaded file cannot be made
executable. -/
def stageFailsEnv : Env :=
  { sampleEnv with stageChmodOk := false }

/-- A host like `sampleEnv` on which the Replace copy cannot create its
destination and the rollback copy succeeds. -/
def replaceCreateFailsEnv : Env :=
  { sampleEnv with replace := { noFaults with createOk := false } }

/-- The interfaces of a host whose loopback interface is named `lo0` and
carries a second loopback address besides 127.0.0.1. -/
def loopbackAliasInterfaces : List InterfaceStat :=
  [{ Name := "lo0".toList
     Addrs := [⟨"127.0.0.1/8".toList⟩, ⟨"::1/128".toList⟩, ⟨"127.0.0.2/8".toList⟩] }]

/-- The interfaces of a usual Linux host. -/
def linuxInterfaces : List InterfaceStat :=
  [{ Name := "lo".toList, Addrs := [⟨"127.0.0.1/8".toList⟩, ⟨"::1/128".toList⟩] },
   { Name := "dummy0".toList, Addrs := [] },
   { Name := "eth0".toList,
     Addrs := [⟨"fe80::1/64".toList⟩, ⟨"192.168.1.7/24".toList⟩, ⟨"10.0.0.9/8".toList⟩] }]

/-- A filesystem in which the running agent (bytes 1 2 3, mode 0755) is
itself the file at the temporary download path. -/
def tempAgentFS : FS :=
  fun p => if p = tempFile then some { content := [1, 2, 3], mode := 0o755 } else none

/-- A host like `sampleEnv` whose agent runs from the temporary download
path: `os.Executable()` is `/tmp/uppi-agent-new`. -/
def tempAgentEnv : Env :=
  { sampleEnv with executable := some tempFile }

/-- A host like `tempAgentEnv` on which the Backup copy cannot create its
destination. -/
def tempAgentNoBackupEnv : Env :=
  { tempAgentEnv with backup := { noFaults with createOk := false } }

/-- A host like `tempAgentEnv` on which the downloaded file cannot be made
executable. -/
def tempAgentStageFailsEnv : Env :=
  { tempAgentEnv with stageChmodOk := false }

/-- A host like `tempAgentEnv` on which the `io.Copy` of the Replace copy
returns an error and the rollback copy succeeds. -/
def tempAgentMidCopyEnv : Env :=
  { tempAgentEnv with replace := { noFaults with copyFail := some 2 } }

/-! # Theorems -/

/-! ## Version comparison -/

theorem trimPrefix_v (s : GoString) : trimPrefix s "v".toList = normalizeTag s := by
  cases s with
  | nil => rfl
  | cons c s =>
    by_cases h : c = 'v'
    · subst h
      simp [trimPrefix, hasPrefix, normalizeTag]
    · have h2 : (c == 'v') = false := by simpa using h
      unfold normalizeTag
      split
      · rename_i heq
        cases heq
        exact absurd rfl h
      · simp [trimPrefix, hasPrefix, h2]

/-- C1: `isNewerVersion` is true exactly when the two tags differ once a
single optional leading "v" has been removed from each, and false when they
are then identical; in particular it is false on ("v1.0.0","1.0.0") and true
on ("v1.0.1","1.0.0") and ("v1.0.0-rc1","1.0.0"). -/
theorem isNewerVersion_spec :
    (∀ latest current : GoString,
      (isNewerVersion latest current = true ↔ normalizeTag latest ≠ normalizeTag current) ∧
      (isNewerVersion latest current = false ↔ normalizeTag latest = normalizeTag current)) ∧
    isNewerVersion "v1.0.0".toList "1.0.0".toList = false ∧
    isNewerVersion "v1.0.1".toList "1.0.0".toList = true ∧
    isNewerVersion "v1.0.0-rc1".toList "1.0.0".toList = true := by
  refine ⟨?_, by decide, by decide, by decide⟩
  intro latest current
  simp only [isNewerVersion, trimPrefix_v]
  simp

/-! ## Artifact selection -/

theorem selectDownloadURL_eq_find (n : GoString) (assets : List Asset) :
    selectDownloadURL n assets =
      ((assets.find? (fun a => decide (a.Name = n))).map Asset.BrowserDownloadURL).getD [] := by
  induction assets with
  | nil => rfl
  | cons a rest ih =>
    by_cases h : a.Name = n
    · simp [selectDownloadURL, List.find?, h]
    · simp [selectDownloadURL, List.find?, h, ih]

theorem selectDownloadURL_mem (n : GoString) (assets : List Asset)
    (h : selectDownloadURL n assets ≠ []) :
    ∃ a ∈ assets, a.Name = n ∧ a.BrowserDownloadURL = selectDownloadURL n assets := by
  induction assets with
  | nil => exact absurd rfl h
  | cons a rest ih =>
    by_cases hn : a.Name = n
    · exact ⟨a, List.mem_cons_self _ _, hn, by simp [selectDownloadURL, hn]⟩
    · have hrest : selectDownloadURL n (a :: rest) = selectDownloadURL n rest := by
        simp [selectDownloadURL, hn]
      rw [hrest] at h ⊢
      obtain ⟨b, hb, hbn, hbu⟩ := ih h
      exact ⟨b, List.mem_cons_of_mem _ hb, hbn, hbu⟩

theorem selectDownloadURL_of_no_match (n : GoString) (assets : List Asset)
    (h : ∀ a ∈ assets, a.Name ≠ n) : selectDownloadURL n assets = [] := by
  induction assets with
  | nil => rfl
  | cons a rest ih =>
    have ha : a.Name ≠ n := h a (List.mem_cons_self _ _)
    simp only [selectDownloadURL, ha, if_false]
    exact ih (fun b hb => h b (List.mem_cons_of_mem _ hb))

theorem selectDownloadURL_of_match (n : GoString) (assets : List Asset) (url : GoString)
    (huniq : ∀ a ∈ assets, a.Name = n → a.BrowserDownloadURL = url)
    (hex : ∃ a ∈ assets, a.Name = n) : selectDownloadURL n assets = url := by
  induction assets with
  | nil =>
    obtain ⟨a, ha, _⟩ := hex
    exact absurd ha (List.not_mem_nil a)
  | cons a rest ih =>
    by_cases hn : a.Name = n
    · simp only [selectDownloadURL, hn, if_true]
      exact huniq a (List.mem_cons_self _ _) hn
    · simp only [selectDownloadURL, hn, if_false]
      apply ih (fun b hb => huniq b (List.mem_cons_of_mem _ hb))
      obtain ⟨b, hb, hbn⟩ := hex
      rcases List.mem_cons.mp hb with rfl | hb2
      · exact absurd hbn hn
      · exact ⟨b, hb2, hbn⟩

theorem selectDownloadURL_perm (n : GoString) (assets assets2 : List Asset)
    (hperm : assets.Perm assets2)
    (hsame : ∀ a ∈ assets, ∀ b ∈ assets, a.Name = n → b.Name = n →
      a.BrowserDownloadURL = b.BrowserDownloadURL) :
    selectDownloadURL n assets2 = selectDownloadURL n assets := by
  by_cases hex : ∃ a ∈ assets, a.Name = n
  · obtain ⟨a, ha, han⟩ := hex
    have h1 : selectDownloadURL n assets = a.BrowserDownloadURL :=
      selectDownloadURL_of_match n assets _ (fun b hb hbn => hsame b hb a ha hbn han)
        ⟨a, ha, han⟩
    have h2 : selectDownloadURL n assets2 = a.BrowserDownloadURL :=
      selectDownloadURL_of_match n assets2 _
        (fun b hb hbn => hsame b (hperm.mem_iff.mpr hb) a ha hbn han)
        ⟨a, hperm.mem_iff.mp ha, han⟩
    rw [h1, h2]
  · have hno : ∀ a ∈ assets, a.Name ≠ n := fun a ha han => hex ⟨a, ha, han⟩
    rw [selectDownloadURL_of_no_match n assets hno]
    exact selectDownloadURL_of_no_match n assets2
      (fun a ha => hno a (hperm.mem_iff.mpr ha))

theorem performUpdate_noAsset_iff (env : Env) (release : GitHubRelease) (fs : FS) :
    (performUpdate env release fs).err = some (.noAsset env.goos env.arch) ↔
      selectDownloadURL (assetNameFor env.goos env.arch) release.Assets = [] := by
  unfold performUpdate
  simp only
  split
  · rename_i h
    simp [h]
  · rename_i h
    simp only [h, iff_false]
    split
    · simp
    · split
      · simp
      · split
        · simp
        · split
          · simp
          · simp

/-! ## Facts about the filesystem calls -/

theorem FS.set_same (fs : FS) (p : Path) (f : Option File) : (fs.set p f) p = f := by
  simp [FS.set]

theorem FS.set_other (fs : FS) (p q : Path) (f : Option File) (h : q ≠ p) :
    (fs.set p f) q = fs q := by
  simp [FS.set, h]

theorem backupPathOf_ne_self (L : Path) : backupPathOf L ≠ L := by
  intro h
  have := congrArg List.length h
  simp [backupPathOf] at this

theorem backupPathOf_ne_tempFile (L : Path) : backupPathOf L ≠ tempFile := by
  intro h
  have h2 := congrArg List.getLast? h
  simp [backupPathOf, tempFile, List.getLast?_append] at h2

theorem osCreate_spec {ok : Bool} {umask : Nat} {fs fs1 : FS} {p : Path}
    (h : osCreate ok umask fs p = some fs1) :
    ok = true ∧ (∃ m, fs1 p = some ⟨[], m⟩ ∧ ∀ f, fs p = some f → m = f.mode) ∧
      ∀ q, q ≠ p → fs1 q = fs q := by
  unfold osCreate at h
  cases ok with
  | false => simp at h
  | true =>
    simp only [if_true] at h
    cases hp : fs p with
    | none =>
      rw [hp] at h
      cases h
      exact ⟨rfl, ⟨_, FS.set_same _ _ _, fun f hf => by cases hf⟩,
        fun q hq => FS.set_other _ _ _ _ hq⟩
    | some f =>
      rw [hp] at h
      cases h
      exact ⟨rfl, ⟨_, FS.set_same _ _ _, fun g hg => by cases hg; rfl⟩,
        fun q hq => FS.set_other _ _ _ _ hq⟩

theorem writeBytes_other (fs : FS) (p q : Path) (w : Bytes) (h : q ≠ p) :
    writeBytes fs p w q = fs q := by
  unfold writeBytes
  cases fs p with
  | none => rfl
  | some f => exact FS.set_other _ _ _ _ h

theorem writeBytes_same (fs : FS) (p : Path) (w : Bytes) (m : Nat) (c : Bytes)
    (h : fs p = some ⟨c, m⟩) : writeBytes fs p w p = some ⟨w, m⟩ := by
  unfold writeBytes
  rw [h]
  exact FS.set_same _ _ _

theorem osChmod_spec {ok : Bool} {fs fs1 : FS} {p : Path} {mode : Nat}
    (h : osChmod ok fs p mode = some fs1) :
    ok = true ∧ (∃ f, fs p = some f ∧ fs1 p = some ⟨f.content, mode⟩) ∧
      ∀ q, q ≠ p → fs1 q = fs q := by
  unfold osChmod at h
  cases ok with
  | false => simp at h
  | true =>
    simp only [if_true] at h
    cases hp : fs p with
    | none => rw [hp] at h; cases h
    | some f =>
      rw [hp] at h
      cases h
      exact ⟨rfl, ⟨f, rfl, FS.set_same _ _ _⟩, fun q hq => FS.set_other _ _ _ _ hq⟩

theorem osRemove_spec {ok : Bool} {fs fs1 : FS} {p : Path}
    (h : osRemove ok fs p = some fs1) :
    ok = true ∧ (fs p).isSome ∧ fs1 p = none ∧ ∀ q, q ≠ p → fs1 q = fs q := by
  unfold osRemove at h
  cases ok with
  | false => simp at h
  | true =>
    simp only [if_true] at h
    cases hp : fs p with
    | none => rw [hp] at h; cases h
    | some f =>
      rw [hp] at h
      cases h
      exact ⟨rfl, rfl, FS.set_same _ _ _, fun q hq => FS.set_other _ _ _ _ hq⟩

theorem osRemove_getD_other (ok : Bool) (fs : FS) (p q : Path) (h : q ≠ p) :
    ((osRemove ok fs p).getD fs) q = fs q := by
  cases hr : osRemove ok fs p with
  | none => rfl
  | some fs1 => exact (osRemove_spec hr).2.2.2 q h

/-- Whatever `copyFile` does, it changes no path other than its destination. -/
theorem copyFile_other (umask : Nat) (f : CopyFaults) (fs : FS) (src dst q : Path)
    (hq : q ≠ dst) : (copyFile umask f fs src dst).1 q = fs q := by
  unfold copyFile
  split
  · split
    · rfl
    · rename_i fs1 hc
      have hfr := (osCreate_spec hc).2.2 q hq
      split
      · simp only [writeBytes_other _ _ _ _ hq, hfr]
      · simp only
        split
        · simp only [writeBytes_other _ _ _ _ hq, hfr]
        · split
          · simp only [writeBytes_other _ _ _ _ hq, hfr]
          · rename_i fs3 hch
            simp only [(osChmod_spec hch).2.2 q hq, writeBytes_other _ _ _ _ hq, hfr]
  · rfl

/-- A `copyFile` between two different paths that returns nil leaves at the
destination the source's bytes under the source's mode. -/
theorem copyFile_ok {umask : Nat} {f : CopyFaults} {fs fs1 : FS} {src dst : Path}
    (hne : src ≠ dst) (h : copyFile umask f fs src dst = (fs1, none)) :
    ∃ s, fs src = some s ∧ fs1 dst = some ⟨s.content, s.mode⟩ := by
  unfold copyFile at h
  split at h
  · rename_i hopen
    split at h
    · cases h
    · rename_i fs0 hc
      obtain ⟨_, ⟨m, hm, _⟩, hfr⟩ := osCreate_spec hc
      split at h
      · cases h
      · simp only at h
        split at h
        · cases h
        · rename_i mode hst
          split at h
          · cases h
          · rename_i fs3 hch
            cases h
            obtain ⟨_, ⟨g, hg, hg2⟩, _⟩ := osChmod_spec hch
            have hsrc0 : fs0 src = fs src := hfr src hne
            have hw : writeBytes fs0 dst (readAll fs0 src) dst =
                some ⟨readAll fs0 src, m⟩ := writeBytes_same _ _ _ _ _ hm
            have hwsrc : writeBytes fs0 dst (readAll fs0 src) src = fs src := by
              rw [writeBytes_other _ _ _ _ hne, hsrc0]
            cases hs : fs src with
            | none =>
              simp [osOpen, hs] at hopen
            | some s =>
              refine ⟨s, rfl, ?_⟩
              have hmode : mode = s.mode := by
                unfold osStat at hst
                rw [hwsrc, hs] at hst
                split at hst
                · simpa using hst.symm
                · cases hst
              have hread : readAll fs0 src = s.content := by
                simp [readAll, hsrc0, hs]
              rw [hw] at hg
              cases hg
              rw [hg2, hmode, hread]
  · cases h

/-- A download that returns nil: the response was a 200 and its whole body is
now the content of `filepath`; no other path changed. -/
theorem downloadFile_ok {env : Env} {url : GoString} {filepath : Path} {fs fs1 : FS}
    (h : downloadFile env url filepath fs = (fs1, none)) :
    ∃ body, env.httpGet url = .response 200 body ∧
      (∃ m, fs1 filepath = some ⟨body, m⟩) ∧ ∀ q, q ≠ filepath → fs1 q = fs q := by
  unfold downloadFile at h
  split at h
  · cases h
  · rename_i status body hget
    split at h
    · cases h
    · rename_i hst
      have hst2 : status = 200 := by simpa using hst
      subst hst2
      split at h
      · cases h
      · rename_i fs0 hc
        obtain ⟨_, ⟨m, hm, _⟩, hfr⟩ := osCreate_spec hc
        split at h
        · cases h
        · cases h
          exact ⟨body, hget, ⟨m, writeBytes_same _ _ _ _ _ hm⟩,
            fun q hq => by rw [writeBytes_other _ _ _ _ hq, hfr q hq]⟩

/-- Whatever `downloadFile` does, it changes no path other than its target. -/
theorem downloadFile_other (env : Env) (url : GoString) (filepath q : Path) (fs : FS)
    (hq : q ≠ filepath) : (downloadFile env url filepath fs).1 q = fs q := by
  unfold downloadFile
  split
  · rfl
  · split
    · rfl
    · split
      · rfl
      · rename_i fs0 hc
        have hfr := (osCreate_spec hc).2.2 q hq
        split <;> simp only [writeBytes_other _ _ _ _ hq, hfr]

/-! ## C2: artifact selection -/

/-- C2 (as stated, refuted): two artifacts that both carry the conventional
name but different locations are selected differently in the two orders of
the list, and an artifact with the conventional name and an empty location is
reported as not found. -/
theorem selection_depends_on_order_and_url :
    List.Perm
        [Asset.mk linuxAmd64 "first".toList, Asset.mk linuxAmd64 "second".toList]
        [Asset.mk linuxAmd64 "second".toList, Asset.mk linuxAmd64 "first".toList] ∧
      selectDownloadURL linuxAmd64
          [Asset.mk linuxAmd64 "first".toList, Asset.mk linuxAmd64 "second".toList] ≠
        selectDownloadURL linuxAmd64
          [Asset.mk linuxAmd64 "second".toList, Asset.mk linuxAmd64 "first".toList] ∧
      (performUpdate sampleEnv
          { TagName := "v1.0.1".toList, Assets := [Asset.mk linuxAmd64 []] } sampleFS).err =
        some (.noAsset "linux".toList "amd64".toList) := by
  refine ⟨List.Perm.swap _ _ _, by decide, by decide⟩

/-- C2 (amended): the selection of `performUpdate` yields the download
location of the first artifact, in list order, whose name is string-equal to
`uppi-agent-<os>-<arch>`; not-found is reported exactly when that location is
empty, which includes the case that no artifact has the name; a selected
location always belongs to an artifact with exactly that name; and the result
is the same for every permutation of the list whenever the artifacts with that
name all have the same location (in particular when at most one has it). -/
theorem performUpdate_selection (env : Env) (release : GitHubRelease) (fs : FS) :
    selectDownloadURL (assetNameFor env.goos env.arch) release.Assets =
        ((release.Assets.find? (fun a => decide (a.Name = assetNameFor env.goos env.arch))).map
          Asset.BrowserDownloadURL).getD [] ∧
      ((performUpdate env release fs).err = some (.noAsset env.goos env.arch) ↔
        selectDownloadURL (assetNameFor env.goos env.arch) release.Assets = []) ∧
      ((∀ a ∈ release.Assets, a.Name ≠ assetNameFor env.goos env.arch) →
        (performUpdate env release fs).err = some (.noAsset env.goos env.arch)) ∧
      (selectDownloadURL (assetNameFor env.goos env.arch) release.Assets ≠ [] →
        ∃ a ∈ release.Assets, a.Name = assetNameFor env.goos env.arch ∧
          a.BrowserDownloadURL =
            selectDownloadURL (assetNameFor env.goos env.arch) release.Assets) ∧
      (∀ assets2 : List Asset, release.Assets.Perm assets2 →
        (∀ a ∈ release.Assets, ∀ b ∈ release.Assets,
          a.Name = assetNameFor env.goos env.arch → b.Name = assetNameFor env.goos env.arch →
          a.BrowserDownloadURL = b.BrowserDownloadURL) →
        selectDownloadURL (assetNameFor env.goos env.arch) assets2 =
          selectDownloadURL (assetNameFor env.goos env.arch) release.Assets) := by
  refine ⟨selectDownloadURL_eq_find _ _, performUpdate_noAsset_iff _ _ _, ?_,
    selectDownloadURL_mem _ _, fun assets2 hp hs => selectDownloadURL_perm _ _ _ hp hs⟩
  intro h
  exact (performUpdate_noAsset_iff _ _ _).mpr (selectDownloadURL_of_no_match _ _ h)

/-- The amended C2 at a release whose two artifacts are listed in either
order: the linux/amd64 one is selected both times. -/
theorem performUpdate_selection_witness :
    selectDownloadURL (assetNameFor sampleEnv.goos sampleEnv.arch)
        [Asset.mk "uppi-agent-darwin-arm64".toList "https://dl/mac".toList,
          Asset.mk linuxAmd64 "https://dl/agent".toList] =
      selectDownloadURL (assetNameFor sampleEnv.goos sampleEnv.arch)
        [Asset.mk linuxAmd64 "https://dl/agent".toList,
          Asset.mk "uppi-agent-darwin-arm64".toList "https://dl/mac".toList] :=
  (performUpdate_selection sampleEnv
      { TagName := "v1.0.1".toList,
        Assets := [Asset.mk linuxAmd64 "https://dl/agent".toList,
          Asset.mk "uppi-agent-darwin-arm64".toList "https://dl/mac".toList] }
      sampleFS).2.2.2.2 _ (List.Perm.swap _ _ _) (by decide)

/-! ## C3: the successful swap -/

theorem performUpdate_eq_of_swap {env : Env} {release : GitHubRelease}
    {fs fs1 fs2 fs4 : FS} {L : Path}
    (hurl : selectDownloadURL (assetNameFor env.goos env.arch) release.Assets ≠ [])
    (hdl : downloadFile env (selectDownloadURL (assetNameFor env.goos env.arch) release.Assets)
      tempFile fs = (fs1, none))
    (hstage : osChmod env.stageChmodOk fs1 tempFile 0o755 = some fs2)
    (hexe : env.executable = some L)
    (hreplace : copyFile env.umask env.replace
      (copyFile env.umask env.backup fs2 L (backupPathOf L)).1 tempFile L = (fs4, none)) :
    (performUpdate env release fs).err = none ∧
      (performUpdate env release fs).fs =
        (osRemove env.removeBackupOk ((osRemove env.removeTempOk fs4 tempFile).getD fs4)
          (backupPathOf L)).getD ((osRemove env.removeTempOk fs4 tempFile).getD fs4) := by
  unfold performUpdate
  simp only [hurl, if_false, hdl, hstage, hexe, hreplace]
  exact ⟨trivial, trivial⟩

/-- C3 (as stated, refuted): with the agent running from the temporary
download path itself, the download, Stage, Backup (no warning is logged),
Replace and both removals succeed and `performUpdate` returns nil, yet the
live path no longer exists afterwards, so it does not hold the downloaded
bytes. -/
theorem full_swap_removes_agent_at_temp_path :
    tempAgentEnv.executable = some tempFile ∧
      tempAgentFS tempFile = some ⟨[1, 2, 3], 0o755⟩ ∧
      (performUpdate tempAgentEnv sampleRelease tempAgentFS).err = none ∧
      (performUpdate tempAgentEnv sampleRelease tempAgentFS).events = [] ∧
      (performUpdate tempAgentEnv sampleRelease tempAgentFS).fs (backupPathOf tempFile) =
        none ∧
      (performUpdate tempAgentEnv sampleRelease tempAgentFS).fs tempFile = none := by
  refine ⟨by decide, by decide, by decide, by decide, by decide, by decide⟩

/-- C3 (amended): when the download, Stage, Backup, Replace and both Cleanup
removals all succeed, `performUpdate` returns nil and neither `T` nor
`B = L + ".backup"` exists any more; and when the executable `L` is not the
temporary path itself, `L` holds exactly the downloaded bytes of `T` under
mode 0755. -/
theorem performUpdate_full_swap (env : Env) (release : GitHubRelease)
    (fs fs1 fs2 fs3 fs4 fs5 fs6 : FS) (L : Path)
    (hurl : selectDownloadURL (assetNameFor env.goos env.arch) release.Assets ≠ [])
    (hdl : downloadFile env (selectDownloadURL (assetNameFor env.goos env.arch) release.Assets)
      tempFile fs = (fs1, none))
    (hstage : osChmod env.stageChmodOk fs1 tempFile 0o755 = some fs2)
    (hexe : env.executable = some L)
    (hbackup : copyFile env.umask env.backup fs2 L (backupPathOf L) = (fs3, none))
    (hreplace : copyFile env.umask env.replace fs3 tempFile L = (fs4, none))
    (hrmT : osRemove env.removeTempOk fs4 tempFile = some fs5)
    (hrmB : osRemove env.removeBackupOk fs5 (backupPathOf L) = some fs6) :
    (performUpdate env release fs).err = none ∧
      (performUpdate env release fs).fs tempFile = none ∧
      (performUpdate env release fs).fs (backupPathOf L) = none ∧
      (L ≠ tempFile →
        ∃ body m,
          env.httpGet (selectDownloadURL (assetNameFor env.goos env.arch) release.Assets) =
            .response 200 body ∧
          fs1 tempFile = some ⟨body, m⟩ ∧
          (performUpdate env release fs).fs L = some ⟨body, 0o755⟩) := by
  have hrep2 : copyFile env.umask env.replace
      (copyFile env.umask env.backup fs2 L (backupPathOf L)).1 tempFile L = (fs4, none) := by
    rw [hbackup]; exact hreplace
  obtain ⟨herr, hfs⟩ := performUpdate_eq_of_swap hurl hdl hstage hexe hrep2
  rw [hfs, hrmT, Option.getD_some, hrmB, Option.getD_some]
  obtain ⟨_, _, hT5, hfr5⟩ := osRemove_spec hrmT
  obtain ⟨_, _, hB6, hfr6⟩ := osRemove_spec hrmB
  refine ⟨herr, ?_, hB6, ?_⟩
  · rw [hfr6 tempFile (backupPathOf_ne_tempFile L).symm, hT5]
  · intro hLT
    obtain ⟨body, hget, ⟨m, hT1⟩, _⟩ := downloadFile_ok hdl
    obtain ⟨_, ⟨t, ht, hT2⟩, _⟩ := osChmod_spec hstage
    rw [hT1] at ht
    cases ht
    have hT3 : fs3 tempFile = some ⟨body, 0o755⟩ := by
      have := copyFile_other env.umask env.backup fs2 L (backupPathOf L) tempFile
        (backupPathOf_ne_tempFile L).symm
      rw [hbackup] at this
      exact this.trans hT2
    obtain ⟨s, hs, hL4⟩ := copyFile_ok (Ne.symm hLT) hreplace
    rw [hT3] at hs
    cases hs
    refine ⟨body, m, hget, hT1, ?_⟩
    rw [hfr6 L (backupPathOf_ne_self L).symm, hfr5 L hLT, hL4]

/-- The amended C3 on the sample host: the agent at `/usr/bin/uppi-agent`
ends up holding the downloaded bytes 4 5 6 7, and the temporary and backup
files are gone. -/
theorem performUpdate_full_swap_witness :
    (performUpdate sampleEnv sampleRelease sampleFS).err = none ∧
      (performUpdate sampleEnv sampleRelease sampleFS).fs tempFile = none ∧
      (performUpdate sampleEnv sampleRelease sampleFS).fs (backupPathOf samplePath) = none ∧
      ∃ body m,
        sampleEnv.httpGet (selectDownloadURL (assetNameFor sampleEnv.goos sampleEnv.arch)
          sampleRelease.Assets) = .response 200 body ∧
        (downloadFile sampleEnv (selectDownloadURL (assetNameFor sampleEnv.goos sampleEnv.arch)
          sampleRelease.Assets) tempFile sampleFS).1 tempFile = some ⟨body, m⟩ ∧
        (performUpdate sampleEnv sampleRelease sampleFS).fs samplePath = some ⟨body, 0o755⟩ := by
  have h := performUpdate_full_swap sampleEnv sampleRelease sampleFS _ _ _ _ _ _ samplePath
    (by decide) rfl rfl rfl rfl rfl rfl rfl
  exact ⟨h.1, h.2.1, h.2.2.1, h.2.2.2 (by decide)⟩

/-! ## C4, C5: rollback after a failed Replace -/

theorem performUpdate_eq_of_replace_fail {env : Env} {release : GitHubRelease}
    {fs fs1 fs2 fs4 : FS} {L : Path} {e : CopyErr}
    (hurl : selectDownloadURL (assetNameFor env.goos env.arch) release.Assets ≠ [])
    (hdl : downloadFile env (selectDownloadURL (assetNameFor env.goos env.arch) release.Assets)
      tempFile fs = (fs1, none))
    (hstage : osChmod env.stageChmodOk fs1 tempFile 0o755 = some fs2)
    (hexe : env.executable = some L)
    (hreplace : copyFile env.umask env.replace
      (copyFile env.umask env.backup fs2 L (backupPathOf L)).1 tempFile L = (fs4, some e)) :
    (performUpdate env release fs).err = some (.replaceBinary e) ∧
      (performUpdate env release fs).fs =
        (copyFile env.umask env.rollback fs4 (backupPathOf L) L).1 := by
  unfold performUpdate
  simp only [hurl, if_false, hdl, hstage, hexe, hreplace]
  exact ⟨trivial, trivial⟩

/-- C4 (as stated, refuted): first, Stage and Backup succeed (no backup
warning is logged), the Replace copy fails mid-copy, and the rollback copy
fails too; the live path is left with the two bytes written so far, not with
the bytes of the backup. Second, with the agent running from the temporary
download path itself, Stage and Backup succeed, the `io.Copy` of the Replace
copy fails and the rollback succeeds (nothing is logged); the live path and
the backup then both hold the downloaded bytes 4 5 6 7, not the pre-update
bytes 1 2 3. -/
theorem rollback_can_fail :
    (performUpdate rollbackFailsEnv sampleRelease sampleFS).err =
        some (.replaceBinary .copy) ∧
      (performUpdate rollbackFailsEnv sampleRelease sampleFS).events =
        [.log (.criticalRestore .createDst)] ∧
      (performUpdate rollbackFailsEnv sampleRelease sampleFS).fs (backupPathOf samplePath) =
        some ⟨[1, 2, 3], 0o755⟩ ∧
      (performUpdate rollbackFailsEnv sampleRelease sampleFS).fs samplePath =
        some ⟨[4, 5], 0o755⟩ ∧
      tempAgentMidCopyEnv.executable = some tempFile ∧
      tempAgentFS tempFile = some ⟨[1, 2, 3], 0o755⟩ ∧
      (performUpdate tempAgentMidCopyEnv sampleRelease tempAgentFS).err =
        some (.replaceBinary .copy) ∧
      (performUpdate tempAgentMidCopyEnv sampleRelease tempAgentFS).events = [] ∧
      (performUpdate tempAgentMidCopyEnv sampleRelease tempAgentFS).fs
          (backupPathOf tempFile) = some ⟨[4, 5, 6, 7], 0o755⟩ ∧
      (performUpdate tempAgentMidCopyEnv sampleRelease tempAgentFS).fs tempFile =
        some ⟨[4, 5, 6, 7], 0o755⟩ := by
  refine ⟨by decide, by decide, by decide, by decide, by decide, by decide, by decide,
    by decide, by decide, by decide⟩

/-- C4 (amended): when Stage and Backup succeed and the Replace copy fails
mid-copy, `performUpdate` returns the replace error and the backup `B` still
exists afterwards, holding the bytes and mode `L` had when the Backup ran (so
`T` and `B` are not both missing); if the rollback copy `B -> L` succeeds,
`L` is identical to `B`; and if `L` is not the temporary path itself, what
`B` holds is the pre-update content of `L`, and `T` still exists. -/
theorem performUpdate_rollback (env : Env) (release : GitHubRelease)
    (fs fs1 fs2 fs3 fs4 : FS) (L : Path)
    (hurl : selectDownloadURL (assetNameFor env.goos env.arch) release.Assets ≠ [])
    (hdl : downloadFile env (selectDownloadURL (assetNameFor env.goos env.arch) release.Assets)
      tempFile fs = (fs1, none))
    (hstage : osChmod env.stageChmodOk fs1 tempFile 0o755 = some fs2)
    (hexe : env.executable = some L)
    (hbackup : copyFile env.umask env.backup fs2 L (backupPathOf L) = (fs3, none))
    (hreplace : copyFile env.umask env.replace fs3 tempFile L = (fs4, some .copy)) :
    (performUpdate env release fs).err = some (.replaceBinary .copy) ∧
      (∃ b : File, fs2 L = some b ∧
        (performUpdate env release fs).fs (backupPathOf L) = some b ∧
        (∀ fs5, copyFile env.umask env.rollback fs4 (backupPathOf L) L = (fs5, none) →
          (performUpdate env release fs).fs L = some b) ∧
        (L ≠ tempFile → fs L = some b)) ∧
      ¬ ((performUpdate env release fs).fs tempFile = none ∧
          (performUpdate env release fs).fs (backupPathOf L) = none) ∧
      (L ≠ tempFile → ((performUpdate env release fs).fs tempFile).isSome = true) := by
  have hrep2 : copyFile env.umask env.replace
      (copyFile env.umask env.backup fs2 L (backupPathOf L)).1 tempFile L =
        (fs4, some .copy) := by
    rw [hbackup]; exact hreplace
  obtain ⟨herr, hfs⟩ := performUpdate_eq_of_replace_fail hurl hdl hstage hexe hrep2
  have hBL := backupPathOf_ne_self L
  have hBT := backupPathOf_ne_tempFile L
  obtain ⟨_, _, _, hfr1⟩ := downloadFile_ok hdl
  obtain ⟨_, ⟨t, _, hT2⟩, hfr2⟩ := osChmod_spec hstage
  -- the backup holds the file the live path named when the Backup ran
  obtain ⟨b, hb2, hB3⟩ := copyFile_ok hBL.symm hbackup
  have fr3 : ∀ q, q ≠ backupPathOf L → fs3 q = fs2 q := fun q hq => by
    have := copyFile_other env.umask env.backup fs2 L (backupPathOf L) q hq
    rw [hbackup] at this; exact this
  have fr4 : ∀ q, q ≠ L → fs4 q = fs3 q := fun q hq => by
    have := copyFile_other env.umask env.replace fs3 tempFile L q hq
    rw [hreplace] at this; exact this
  have frR : ∀ q, q ≠ L → (performUpdate env release fs).fs q = fs4 q := fun q hq => by
    rw [hfs]; exact copyFile_other env.umask env.rollback fs4 (backupPathOf L) L q hq
  have hB4 : fs4 (backupPathOf L) = some b := by rw [fr4 _ hBL]; exact hB3
  have hBR : (performUpdate env release fs).fs (backupPathOf L) = some b := by
    rw [frR _ hBL]; exact hB4
  refine ⟨herr, ⟨b, hb2, hBR, ?_, ?_⟩, ?_, ?_⟩
  · intro fs5 hrollback
    obtain ⟨b2, hb4, hL5⟩ := copyFile_ok hBL hrollback
    rw [hB4] at hb4
    cases hb4
    rw [hfs, hrollback]
    exact hL5
  · intro hLT
    rw [← hfr1 L hLT, ← hfr2 L hLT]
    exact hb2
  · rw [hBR]
    intro h
    cases h.2
  · intro hLT
    rw [frR _ hLT.symm, fr4 _ hLT.symm, fr3 _ hBT.symm, hT2]
    rfl

/-- The amended C4 on the sample host, where the rollback succeeds: after the
failed Replace the agent binary and the backup are both the pre-update file,
and the temporary file still exists. -/
theorem performUpdate_rollback_witness :
    (performUpdate midCopyEnv sampleRelease sampleFS).err = some (.replaceBinary .copy) ∧
      (∃ b : File, sampleFS samplePath = some b ∧
        (performUpdate midCopyEnv sampleRelease sampleFS).fs (backupPathOf samplePath) =
          some b ∧
        (performUpdate midCopyEnv sampleRelease sampleFS).fs samplePath = some b) ∧
      ((performUpdate midCopyEnv sampleRelease sampleFS).fs tempFile).isSome = true := by
  have h := performUpdate_rollback midCopyEnv sampleRelease sampleFS _ _ _ _ samplePath
    (by decide) rfl rfl rfl rfl rfl
  obtain ⟨herr, ⟨b, _, hB, hL, hpre⟩, _, hT⟩ := h
  exact ⟨herr, ⟨b, hpre (by decide), hB, hL _ rfl⟩, hT (by decide)⟩

/-- C5 (the code at the failing inputs): with a backup file left over from an
earlier run and a failed Backup step, a failed Replace followed by a rollback
copy that succeeds (no critical line is logged) leaves at the live path the
stale bytes 9 9 instead of the pre-update bytes 1 2 3; and with no stale file
but a Backup copy that failed after one byte, the successful rollback leaves
the one-byte backup at the live path. -/
theorem rollback_restores_foreign_backup :
    staleFS samplePath = some ⟨[1, 2, 3], 0o755⟩ ∧
      (performUpdate backupFailsEnv sampleRelease staleFS).err =
        some (.replaceBinary .copy) ∧
      (performUpdate backupFailsEnv sampleRelease staleFS).events =
        [.log (.warnBackup .createDst)] ∧
      (performUpdate backupFailsEnv sampleRelease staleFS).fs samplePath =
        some ⟨[9, 9], 0o755⟩ ∧
      sampleFS samplePath = some ⟨[1, 2, 3], 0o755⟩ ∧
      (performUpdate backupTornEnv sampleRelease sampleFS).events =
        [.log (.warnBackup .copy)] ∧
      (performUpdate backupTornEnv sampleRelease sampleFS).fs samplePath =
        some ⟨[1], 0o644⟩ := by
  refine ⟨by decide, by decide, by decide, by decide, by decide, by decide, by decide⟩

/-! ## C6: what the live path holds during Replace -/

theorem copyFileStates_getLast (umask : Nat) (f : CopyFaults) (fs : FS) (src dst : Path) :
    (copyFileStates umask f fs src dst).getLast? = some (copyFile umask f fs src dst).1 := by
  unfold copyFileStates copyFile
  split
  · split
    · rfl
    · split
      · rfl
      · simp only
        split
        · rfl
        · split <;> rfl
  · rfl

/-- C6 (as stated, refuted): during a Replace in which every call succeeds,
the live path is empty once `os.Create` has returned (it was truncated in
place, keeping its mode) and before `io.Copy` has written; and a Replace whose
`io.Copy` fails after two bytes leaves the live path partially written. -/
theorem replace_truncates_in_place :
    (copyFileStates 0o022 noFaults replaceFS tempFile samplePath).map
        (fun st => st samplePath) =
      [some ⟨[1, 2, 3], 0o755⟩, some ⟨[], 0o755⟩, some ⟨[4, 5, 6, 7], 0o755⟩,
        some ⟨[4, 5, 6, 7], 0o755⟩] ∧
      (copyFile 0o022 { noFaults with copyFail := some 2 } replaceFS tempFile
          samplePath).1 samplePath = some ⟨[4, 5], 0o755⟩ := by
  refine ⟨by decide, by decide⟩

/-- C6 (amended): `copyFile` from `T` to a different path `L` starts from the
filesystem as it found it, and ends in the state `copyFile` returns; in every
state after the entry state `L` is a file holding a prefix of `T`s bytes
(through `os.Create` it is empty, truncated in place); and when `copyFile`
returns nil `L` holds all of `T`s bytes. -/
theorem copyFile_states (umask : Nat) (f : CopyFaults) (fs : FS) (src dst : Path)
    (s : File) (hne : src ≠ dst) (hs : fs src = some s) :
    (copyFileStates umask f fs src dst).head? = some fs ∧
      (copyFileStates umask f fs src dst).getLast? =
        some (copyFile umask f fs src dst).1 ∧
      (∀ st ∈ (copyFileStates umask f fs src dst).tail,
        ∃ d, st dst = some d ∧ d.content <+: s.content) ∧
      (∀ st, (copyFileStates umask f fs src dst)[1]? = some st →
        ∃ d, st dst = some d ∧ d.content = [] ∧ ∀ old, fs dst = some old → d.mode = old.mode) ∧
      ((copyFile umask f fs src dst).2 = none →
        ∃ d, (copyFile umask f fs src dst).1 dst = some d ∧ d.content = s.content) := by
  refine ⟨?_, copyFileStates_getLast _ _ _ _ _, ?_, ?_, ?_⟩
  · unfold copyFileStates
    split
    · split
      · rfl
      · split
        · rfl
        · simp only
          split
          · rfl
          · split <;> rfl
    · rfl
  · intro st hst
    unfold copyFileStates at hst
    split at hst
    · split at hst
      · simp at hst
      · rename_i fs1 hc
        obtain ⟨_, ⟨m, hm, _⟩, hfr⟩ := osCreate_spec hc
        have hread : readAll fs1 src = s.content := by
          simp [readAll, hfr src hne, hs]
        have h1 : ∃ d, fs1 dst = some d ∧ d.content <+: s.content :=
          ⟨_, hm, List.nil_prefix⟩
        have hw : ∀ w : Bytes, w <+: s.content →
            ∃ d, writeBytes fs1 dst w dst = some d ∧ d.content <+: s.content :=
          fun w hw => ⟨_, writeBytes_same _ _ _ _ _ hm, hw⟩
        split at hst
        · rename_i k _
          simp only [List.tail_cons, List.mem_cons, List.mem_singleton, List.not_mem_nil,
            or_false] at hst
          rcases hst with rfl | rfl
          · exact h1
          · rw [hread]; exact hw _ (List.take_prefix _ _)
        · simp only at hst
          have h2 := hw (readAll fs1 src) (by rw [hread])
          split at hst
          · simp only [List.tail_cons, List.mem_cons, List.mem_singleton, List.not_mem_nil,
              or_false] at hst
            rcases hst with rfl | rfl
            · exact h1
            · exact h2
          · split at hst
            · simp only [List.tail_cons, List.mem_cons, List.mem_singleton, List.not_mem_nil,
                or_false] at hst
              rcases hst with rfl | rfl
              · exact h1
              · exact h2
            · rename_i fs3 hch
              simp only [List.tail_cons, List.mem_cons, List.mem_singleton, List.not_mem_nil,
                or_false] at hst
              rcases hst with rfl | rfl | rfl
              · exact h1
              · exact h2
              · obtain ⟨_, ⟨g, hg, hg2⟩, _⟩ := osChmod_spec hch
                obtain ⟨d, hd, hpre⟩ := h2
                rw [hd] at hg
                cases hg
                exact ⟨_, hg2, hpre⟩
    · simp at hst
  · intro st hst
    unfold copyFileStates at hst
    split at hst
    · split at hst
      · simp at hst
      · rename_i fs1 hc
        obtain ⟨_, ⟨m, hm, hmode⟩, _⟩ := osCreate_spec hc
        have hst1 : st = fs1 := by
          split at hst
          · simpa using hst.symm
          · simp only at hst
            split at hst
            · simpa using hst.symm
            · split at hst <;> simpa using hst.symm
        subst hst1
        exact ⟨_, hm, rfl, fun old ho => hmode old ho⟩
    · simp at hst
  · intro hok
    cases hcf : copyFile umask f fs src dst with
    | mk fs1 e =>
      rw [hcf] at hok
      simp only at hok
      subst hok
      obtain ⟨s2, hs2, hd⟩ := copyFile_ok hne hcf
      rw [hs] at hs2
      cases hs2
      exact ⟨_, hd, rfl⟩

/-- The amended C6 on the sample Replace, in which every call succeeds: the
run starts from the filesystem as found, and the live path ends up holding
all of the bytes 4 5 6 7. -/
theorem copyFile_states_witness :
    (copyFileStates 0o022 noFaults replaceFS tempFile samplePath).head? = some replaceFS ∧
      ∃ d, (copyFile 0o022 noFaults replaceFS tempFile samplePath).1 samplePath = some d ∧
        d.content = [4, 5, 6, 7] :=
  ⟨(copyFile_states 0o022 noFaults replaceFS tempFile samplePath ⟨[4, 5, 6, 7], 0o755⟩
      (by decide) (by decide)).1,
    (copyFile_states 0o022 noFaults replaceFS tempFile samplePath ⟨[4, 5, 6, 7], 0o755⟩
      (by decide) (by decide)).2.2.2.2 (by decide)⟩

/-! ## C7: a failed Backup does not block the swap -/

theorem performUpdate_events_of_swap {env : Env} {release : GitHubRelease}
    {fs fs1 fs2 fs3 fs4 : FS} {L : Path} {be : Option CopyErr}
    (hurl : selectDownloadURL (assetNameFor env.goos env.arch) release.Assets ≠ [])
    (hdl : downloadFile env (selectDownloadURL (assetNameFor env.goos env.arch) release.Assets)
      tempFile fs = (fs1, none))
    (hstage : osChmod env.stageChmodOk fs1 tempFile 0o755 = some fs2)
    (hexe : env.executable = some L)
    (hbackup : copyFile env.umask env.backup fs2 L (backupPathOf L) = (fs3, be))
    (hreplace : copyFile env.umask env.replace fs3 tempFile L = (fs4, none)) :
    (performUpdate env release fs).events =
      (match be with
        | some e => [Event.log (.warnBackup e)]
        | none => []) := by
  unfold performUpdate
  simp only [hurl, if_false, hdl, hstage, hexe, hbackup, hreplace]
  cases be <;> rfl

/-- C7 (as stated, refuted): with the agent running from the temporary
download path itself, the Backup copy fails (the warning is logged), the
download, Stage and Replace succeed and `performUpdate` returns nil, yet the
live path does not hold the downloaded bytes: it no longer exists. -/
theorem backup_failure_swap_removes_agent_at_temp_path :
    tempAgentNoBackupEnv.executable = some tempFile ∧
      tempAgentFS tempFile = some ⟨[1, 2, 3], 0o755⟩ ∧
      (performUpdate tempAgentNoBackupEnv sampleRelease tempAgentFS).err = none ∧
      (performUpdate tempAgentNoBackupEnv sampleRelease tempAgentFS).events =
        [.log (.warnBackup .createDst)] ∧
      (performUpdate tempAgentNoBackupEnv sampleRelease tempAgentFS).fs tempFile = none := by
  refine ⟨by decide, by decide, by decide, by decide, by decide⟩

/-- C7 (amended): when the download, Stage and Replace succeed but the Backup
copy `L -> B` fails, `performUpdate` returns nil, having logged only the
backup warning; and when the executable `L` is not the temporary path itself,
`L` holds the downloaded bytes under mode 0755. -/
theorem performUpdate_backup_failure_nonfatal (env : Env) (release : GitHubRelease)
    (fs fs1 fs2 fs3 fs4 : FS) (L : Path) (e : CopyErr)
    (hurl : selectDownloadURL (assetNameFor env.goos env.arch) release.Assets ≠ [])
    (hdl : downloadFile env (selectDownloadURL (assetNameFor env.goos env.arch) release.Assets)
      tempFile fs = (fs1, none))
    (hstage : osChmod env.stageChmodOk fs1 tempFile 0o755 = some fs2)
    (hexe : env.executable = some L)
    (hbackup : copyFile env.umask env.backup fs2 L (backupPathOf L) = (fs3, some e))
    (hreplace : copyFile env.umask env.replace fs3 tempFile L = (fs4, none)) :
    (performUpdate env release fs).err = none ∧
      (performUpdate env release fs).events = [.log (.warnBackup e)] ∧
      (L ≠ tempFile →
        ∃ body,
          env.httpGet (selectDownloadURL (assetNameFor env.goos env.arch) release.Assets) =
            .response 200 body ∧
          (performUpdate env release fs).fs L = some ⟨body, 0o755⟩) := by
  have hrep2 : copyFile env.umask env.replace
      (copyFile env.umask env.backup fs2 L (backupPathOf L)).1 tempFile L = (fs4, none) := by
    rw [hbackup]; exact hreplace
  obtain ⟨herr, hfs⟩ := performUpdate_eq_of_swap hurl hdl hstage hexe hrep2
  have hev := performUpdate_events_of_swap hurl hdl hstage hexe hbackup hreplace
  refine ⟨herr, hev, ?_⟩
  intro hLT
  obtain ⟨body, hget, ⟨m, hT1⟩, _⟩ := downloadFile_ok hdl
  obtain ⟨_, ⟨t, ht, hT2⟩, _⟩ := osChmod_spec hstage
  rw [hT1] at ht
  cases ht
  have hT3 : fs3 tempFile = some ⟨body, 0o755⟩ := by
    have := copyFile_other env.umask env.backup fs2 L (backupPathOf L) tempFile
      (backupPathOf_ne_tempFile L).symm
    rw [hbackup] at this
    exact this.trans hT2
  obtain ⟨s, hs, hL4⟩ := copyFile_ok (Ne.symm hLT) hreplace
  rw [hT3] at hs
  cases hs
  refine ⟨body, hget, ?_⟩
  rw [hfs, osRemove_getD_other _ _ _ _ (backupPathOf_ne_self L).symm,
    osRemove_getD_other _ _ _ _ hLT, hL4]

/-- The amended C7 on the sample host: no backup could be made, yet the
update is reported as successful and the agent holds bytes 4 5 6 7. -/
theorem performUpdate_backup_failure_nonfatal_witness :
    (performUpdate noBackupEnv sampleRelease sampleFS).err = none ∧
      (performUpdate noBackupEnv sampleRelease sampleFS).events =
        [.log (.warnBackup .createDst)] ∧
      ∃ body,
        noBackupEnv.httpGet (selectDownloadURL (assetNameFor noBackupEnv.goos noBackupEnv.arch)
          sampleRelease.Assets) = .response 200 body ∧
        (performUpdate noBackupEnv sampleRelease sampleFS).fs samplePath =
          some ⟨body, 0o755⟩ := by
  have h := performUpdate_backup_failure_nonfatal noBackupEnv sampleRelease sampleFS _ _ _ _
    samplePath .createDst (by decide) rfl rfl rfl rfl rfl
  exact ⟨h.1, h.2.1, h.2.2 (by decide)⟩

/-! ## C8: when the agent restarts -/

theorem performUpdate_events_log (env : Env) (release : GitHubRelease) (fs : FS) :
    (performUpdate env release fs).events.any Event.isProcessControl = false := by
  unfold performUpdate
  simp only
  split
  · rfl
  · split
    · rfl
    · split
      · rfl
      · split
        · rfl
        · rename_i L _
          cases hb : copyFile env.umask env.backup _ L (backupPathOf L) with
          | mk fs3 be =>
            simp only
            split
            · rename_i fs4 e _
              cases hr : copyFile env.umask env.rollback fs4 (backupPathOf L) L with
              | mk fs5 re =>
                cases be <;> cases re <;> rfl
            · cases be <;> rfl

theorem restartAgent_isProcessControl (env : Env) :
    (restartAgent env).any Event.isProcessControl = true := by
  unfold restartAgent
  split
  · rfl
  · simp [Event.isProcessControl]

/-- C8: the events of `CheckForUpdates` contain a process-control event
(those of `restartAgent`) exactly when the release was resolved,
`isNewerVersion` returned true and `performUpdate` returned nil; in that case
the events end with the "completed" line followed by those of `restartAgent`;
in every other case `CheckForUpdates` returns having produced log lines only:
no command run, no process started, no exit scheduled. -/
theorem CheckForUpdates_restart (env : Env) (fs : FS) :
    ((CheckForUpdates env fs).2.any Event.isProcessControl = true ↔
        ∃ release, getLatestRelease env = .ok release ∧
          isNewerVersion release.TagName Version = true ∧
          (performUpdate env release fs).err = none) ∧
      (∀ release, getLatestRelease env = .ok release →
        isNewerVersion release.TagName Version = true →
        (performUpdate env release fs).err = none →
        (CheckForUpdates env fs).2 =
          [.log .checking, .log (.newVersion release.TagName Version)] ++
            (performUpdate env release fs).events ++ [.log .completedRestarting] ++
            restartAgent env) ∧
      ((¬ ∃ release, getLatestRelease env = .ok release ∧
          isNewerVersion release.TagName Version = true ∧
          (performUpdate env release fs).err = none) →
        ∀ ev ∈ (CheckForUpdates env fs).2, ∃ line, ev = .log line) := by
  have key : (CheckForUpdates env fs).2.any Event.isProcessControl = true ↔
      ∃ release, getLatestRelease env = .ok release ∧
        isNewerVersion release.TagName Version = true ∧
        (performUpdate env release fs).err = none := by
    unfold CheckForUpdates
    cases hrel : getLatestRelease env with
    | error e => simp [Event.isProcessControl]
    | ok release =>
      simp only
      cases hnew : isNewerVersion release.TagName Version with
      | false => simp [Event.isProcessControl, hnew]
      | true =>
        simp only [if_true]
        cases herr : (performUpdate env release fs).err with
        | some e =>
          simp only [List.any_append, performUpdate_events_log, Except.ok.injEq]
          simp [Event.isProcessControl, herr]
        | none =>
          simp only [List.any_append, restartAgent_isProcessControl, Bool.or_true, true_iff]
          exact ⟨release, rfl, hnew, herr⟩
  refine ⟨key, ?_, ?_⟩
  · intro release hrel hnew herr
    unfold CheckForUpdates
    simp only [hrel, hnew, if_true, herr]
  · intro hno ev hev
    have hfalse : (CheckForUpdates env fs).2.any Event.isProcessControl = false := by
      cases h : (CheckForUpdates env fs).2.any Event.isProcessControl with
      | false => rfl
      | true => exact absurd (key.mp h) hno
    rw [List.any_eq_false] at hfalse
    have := hfalse ev hev
    cases ev with
    | log line => exact ⟨line, rfl⟩
    | run _ _ => simp [Event.isProcessControl] at this
    | start _ _ => simp [Event.isProcessControl] at this
    | scheduleExit _ _ => simp [Event.isProcessControl] at this

/-- C8 on the sample host: the release is newer and the swap succeeds, so the
agent restarts itself. -/
theorem CheckForUpdates_restart_witness :
    (CheckForUpdates sampleEnv sampleFS).2 =
      [.log .checking, .log (.newVersion sampleRelease.TagName Version)] ++
        (performUpdate sampleEnv sampleRelease sampleFS).events ++
        [.log .completedRestarting] ++ restartAgent sampleEnv :=
  (CheckForUpdates_restart sampleEnv sampleFS).2.1 sampleRelease rfl (by decide)
    (by decide)

/-! ## C9: how the agent restarts -/

/-- C9 (as stated, refuted): with the marker `SYSTEMD_EXEC_PID` absent but
the parent process being process 1, `restartAgent` issues
`systemctl restart uppi-agent` and neither starts a process nor schedules an
exit. -/
theorem restartAgent_parent_is_init :
    initChildEnv.getenv "SYSTEMD_EXEC_PID".toList = [] ∧
      restartAgent initChildEnv =
        [.run "systemctl".toList ["restart".toList, "uppi-agent".toList]] := by
  refine ⟨by decide, by decide⟩

/-- C9 (amended): `isSystemdService` holds exactly when `SYSTEMD_EXEC_PID` is
non-empty or the parent process id is 1. When it holds, `restartAgent` only
runs `systemctl restart uppi-agent` (no process is started, no exit
scheduled); when `SYSTEMD_EXEC_PID` is empty and the parent is not process 1,
it starts `os.Args[0]` with `os.Args[1:]`, logs a failure if the start failed,
and schedules the exit of the current process (code 0 after 2 seconds),
running no `systemctl`. -/
theorem restartAgent_spec (env : Env) :
    (isSystemdService env = true ↔
        (env.getenv "SYSTEMD_EXEC_PID".toList ≠ [] ∨ env.getppid = 1)) ∧
      (env.getenv "SYSTEMD_EXEC_PID".toList ≠ [] ∨ env.getppid = 1 →
        restartAgent env =
          [.run "systemctl".toList ["restart".toList, "uppi-agent".toList]]) ∧
      (env.getenv "SYSTEMD_EXEC_PID".toList = [] ∧ env.getppid ≠ 1 →
        restartAgent env =
            [.start env.argv0 env.argvRest] ++
              (if env.startOk then [] else [.log .failedRestart]) ++
              [.scheduleExit 2 0] ∧
          ∀ name args, Event.run name args ∉ restartAgent env) := by
  have hiff : isSystemdService env = true ↔
      (env.getenv "SYSTEMD_EXEC_PID".toList ≠ [] ∨ env.getppid = 1) := by
    simp [isSystemdService]
  refine ⟨hiff, ?_, ?_⟩
  · intro h
    unfold restartAgent
    rw [if_pos (hiff.mpr h)]
  · intro h
    have hno : ¬ isSystemdService env = true := by
      rw [hiff]
      rintro (h1 | h1)
      · exact h1 h.1
      · exact h.2 h1
    have heq : restartAgent env =
        [.start env.argv0 env.argvRest] ++
          (if env.startOk then [] else [.log .failedRestart]) ++ [.scheduleExit 2 0] := by
      unfold restartAgent
      rw [if_neg hno]
    refine ⟨heq, ?_⟩
    intro name args hmem
    rw [heq] at hmem
    cases hs : env.startOk <;> simp [hs] at hmem

/-- The amended C9 on a host with `SYSTEMD_EXEC_PID` set: only the supervised
restart is issued. -/
theorem restartAgent_spec_witness :
    restartAgent systemdEnv =
      [.run "systemctl".toList ["restart".toList, "uppi-agent".toList]] :=
  (restartAgent_spec systemdEnv).2.1 (Or.inl (by decide))

/-! ## C10: early stops leave the live path and the backup path alone -/

/-- A `performUpdate` that stops before the swap (no asset, download error,
Stage error, no executable path) has changed no path but the temporary one. -/
theorem performUpdate_early_frame (env : Env) (release : GitHubRelease) (fs : FS)
    (h : ∀ e, (performUpdate env release fs).err ≠ some (.replaceBinary e))
    (hok : (performUpdate env release fs).err ≠ none)
    (q : Path) (hq : q ≠ tempFile) : (performUpdate env release fs).fs q = fs q := by
  unfold performUpdate at h hok ⊢
  simp only at h hok ⊢
  split
  · rfl
  · rename_i hurl
    simp only [hurl, if_false] at h hok
    cases hd : downloadFile env (selectDownloadURL (assetNameFor env.goos env.arch)
        release.Assets) tempFile fs with
    | mk fs1 de =>
      have hfr1 : fs1 q = fs q := by
        have := downloadFile_other env (selectDownloadURL (assetNameFor env.goos env.arch)
          release.Assets) tempFile q fs hq
        rw [hd] at this; exact this
      rw [hd] at h hok
      cases de with
      | some e => exact hfr1
      | none =>
        simp only at h hok ⊢
        cases hc : osChmod env.stageChmodOk fs1 tempFile 0o755 with
        | none => exact hfr1
        | some fs2 =>
          have hfr2 : fs2 q = fs1 q := (osChmod_spec hc).2.2 q hq
          rw [hc] at h hok
          simp only at h hok ⊢
          cases hx : env.executable with
          | none => exact hfr2.trans hfr1
          | some L =>
            rw [hx] at h hok
            simp only at h hok ⊢
            cases hr : copyFile env.umask env.replace
                (copyFile env.umask env.backup fs2 L (backupPathOf L)).1 tempFile L with
            | mk fs4 re =>
              rw [hr] at h hok
              cases re with
              | some e => exact absurd rfl (h e)
              | none => exact absurd rfl hok

theorem performUpdate_noAsset_fs (env : Env) (release : GitHubRelease) (fs : FS)
    (h : (performUpdate env release fs).err = some (.noAsset env.goos env.arch)) :
    (performUpdate env release fs).fs = fs := by
  have hurl := (performUpdate_noAsset_iff env release fs).mp h
  unfold performUpdate
  simp only [hurl, if_true]

/-- C10 (as stated, refuted): with the agent running from the temporary
download path itself, the Stage step fails (the update is logged as failed
for that reason) after the download has already overwritten the live path:
it held bytes 1 2 3 before the attempt and holds bytes 4 5 6 7 after it. -/
theorem stage_failure_after_download_over_agent_at_temp_path :
    tempAgentStageFailsEnv.executable = some tempFile ∧
      tempAgentFS tempFile = some ⟨[1, 2, 3], 0o755⟩ ∧
      (CheckForUpdates tempAgentStageFailsEnv tempAgentFS).2 =
        [.log .checking, .log (.newVersion "v1.0.1".toList Version),
          .log (.failedUpdate .makeExecutable)] ∧
      (CheckForUpdates tempAgentStageFailsEnv tempAgentFS).1 tempFile =
        some ⟨[4, 5, 6, 7], 0o755⟩ := by
  refine ⟨by decide, by decide, by decide, by decide⟩

/-- C10 (amended): when the update attempt stops because the resolver failed,
the candidate is not newer, no artifact was selected, or the Stage step
failed, the backup path `L + ".backup"` is exactly as before (no backup was
created) and so is every live path `L` (content and mode) other than the
temporary path; and unless the stop is the Stage failure, the whole
filesystem is exactly as before. -/
theorem CheckForUpdates_early_stop_frame (env : Env) (fs : FS) (L : Path)
    (hstop : (∃ e, getLatestRelease env = .error e) ∨
      ∃ release, getLatestRelease env = .ok release ∧
        (isNewerVersion release.TagName Version = false ∨
          (performUpdate env release fs).err = some (.noAsset env.goos env.arch) ∨
          (performUpdate env release fs).err = some .makeExecutable)) :
    (CheckForUpdates env fs).1 (backupPathOf L) = fs (backupPathOf L) ∧
      (L ≠ tempFile → (CheckForUpdates env fs).1 L = fs L) ∧
      ((∀ release, getLatestRelease env = .ok release →
          isNewerVersion release.TagName Version = true →
          (performUpdate env release fs).err ≠ some .makeExecutable) →
        (CheckForUpdates env fs).1 = fs) := by
  have hall : ∀ q, q ≠ tempFile → (CheckForUpdates env fs).1 q = fs q := by
    intro q hq
    rcases hstop with ⟨e, he⟩ | ⟨release, hrel, hcase⟩
    · unfold CheckForUpdates
      simp only [he]
    · unfold CheckForUpdates
      simp only [hrel]
      rcases hcase with hnew | herr | herr
      · simp [hnew]
      · split
        · simp only [herr]
          exact performUpdate_early_frame env release fs (by simp [herr]) (by simp [herr]) q hq
        · rfl
      · split
        · simp only [herr]
          exact performUpdate_early_frame env release fs (by simp [herr]) (by simp [herr]) q hq
        · rfl
  refine ⟨hall _ (backupPathOf_ne_tempFile L), hall L, ?_⟩
  intro hnostage
  rcases hstop with ⟨e, he⟩ | ⟨release, hrel, hcase⟩
  · unfold CheckForUpdates
    simp only [he]
  · unfold CheckForUpdates
    simp only [hrel]
    cases hnew : isNewerVersion release.TagName Version with
    | false => simp
    | true =>
      simp only [if_true]
      rcases hcase with hf | herr | herr
      · rw [hnew] at hf; cases hf
      · simp only [herr]
        exact performUpdate_noAsset_fs env release fs herr
      · exact absurd herr (hnostage release hrel hnew)

/-- A host like `sampleEnv` on which the downloaded file cannot be made
executable: the agent binary and the absent backup are as before. -/
theorem CheckForUpdates_early_stop_frame_witness :
    (CheckForUpdates stageFailsEnv sampleFS).1 (backupPathOf samplePath) =
        sampleFS (backupPathOf samplePath) ∧
      (CheckForUpdates stageFailsEnv sampleFS).1 samplePath = sampleFS samplePath := by
  have h := CheckForUpdates_early_stop_frame stageFailsEnv sampleFS samplePath
    (Or.inr ⟨sampleRelease, rfl, Or.inr (Or.inr (by decide))⟩)
  exact ⟨h.1, h.2.1 (by decide)⟩

/-! ## C11: when the backup file is removed -/

/-- C11 (as stated, refuted): the Backup succeeds (no warning is logged),
the Replace copy fails, the rollback succeeds (no critical line), and
`performUpdate` returns with the backup file still in place, although a
removal of it would have succeeded: no removal is attempted on this path. -/
theorem backup_left_after_failed_replace :
    (performUpdate replaceCreateFailsEnv sampleRelease sampleFS).err =
        some (.replaceBinary .createDst) ∧
      (performUpdate replaceCreateFailsEnv sampleRelease sampleFS).events = [] ∧
      replaceCreateFailsEnv.removeBackupOk = true ∧
      (performUpdate replaceCreateFailsEnv sampleRelease sampleFS).fs
          (backupPathOf samplePath) = some ⟨[1, 2, 3], 0o755⟩ := by
  refine ⟨by decide, by decide, by decide, by decide⟩

/-- C11 (amended): `performUpdate` removes the backup file `B` only after a
successful Replace: when Replace succeeded and `os.Remove(B)` succeeded, `B`
no longer exists when `performUpdate` returns; when Replace failed, no
removal is attempted and `B` is left exactly as the Backup step left it, so
it exists whenever the Backup succeeded. -/
theorem performUpdate_backup_removal (env : Env) (release : GitHubRelease)
    (fs fs1 fs2 : FS) (L : Path)
    (hurl : selectDownloadURL (assetNameFor env.goos env.arch) release.Assets ≠ [])
    (hdl : downloadFile env (selectDownloadURL (assetNameFor env.goos env.arch) release.Assets)
      tempFile fs = (fs1, none))
    (hstage : osChmod env.stageChmodOk fs1 tempFile 0o755 = some fs2)
    (hexe : env.executable = some L) :
    (∀ fs4 fs6,
        copyFile env.umask env.replace
          (copyFile env.umask env.backup fs2 L (backupPathOf L)).1 tempFile L = (fs4, none) →
        osRemove env.removeBackupOk ((osRemove env.removeTempOk fs4 tempFile).getD fs4)
          (backupPathOf L) = some fs6 →
        (performUpdate env release fs).err = none ∧
          (performUpdate env release fs).fs (backupPathOf L) = none) ∧
      (∀ fs4 e,
        copyFile env.umask env.replace
          (copyFile env.umask env.backup fs2 L (backupPathOf L)).1 tempFile L =
            (fs4, some e) →
        (performUpdate env release fs).err = some (.replaceBinary e) ∧
          (performUpdate env release fs).fs (backupPathOf L) =
            (copyFile env.umask env.backup fs2 L (backupPathOf L)).1 (backupPathOf L) ∧
          ((copyFile env.umask env.backup fs2 L (backupPathOf L)).2 = none →
            ((performUpdate env release fs).fs (backupPathOf L)).isSome = true)) := by
  have hBL := backupPathOf_ne_self L
  refine ⟨?_, ?_⟩
  · intro fs4 fs6 hreplace hrm
    obtain ⟨herr, hfs⟩ := performUpdate_eq_of_swap hurl hdl hstage hexe hreplace
    refine ⟨herr, ?_⟩
    rw [hfs, hrm, Option.getD_some]
    exact (osRemove_spec hrm).2.2.1
  · intro fs4 e hreplace
    obtain ⟨herr, hfs⟩ := performUpdate_eq_of_replace_fail hurl hdl hstage hexe hreplace
    have hB : (performUpdate env release fs).fs (backupPathOf L) =
        (copyFile env.umask env.backup fs2 L (backupPathOf L)).1 (backupPathOf L) := by
      rw [hfs, copyFile_other _ _ _ _ _ _ hBL]
      have := copyFile_other env.umask env.replace
        (copyFile env.umask env.backup fs2 L (backupPathOf L)).1 tempFile L
        (backupPathOf L) hBL
      rw [hreplace] at this
      exact this
    refine ⟨herr, hB, ?_⟩
    intro hok
    rw [hB]
    cases hb : copyFile env.umask env.backup fs2 L (backupPathOf L) with
    | mk fs3 be =>
      rw [hb] at hok
      simp only at hok
      subst hok
      obtain ⟨old, _, hB3⟩ := copyFile_ok hBL.symm hb
      simp only [hB3, Option.isSome_some]

/-- The amended C11 on the sample host, where the whole swap succeeds: the
backup file is gone afterwards. -/
theorem performUpdate_backup_removal_witness :
    (performUpdate sampleEnv sampleRelease sampleFS).err = none ∧
      (performUpdate sampleEnv sampleRelease sampleFS).fs (backupPathOf samplePath) = none :=
  (performUpdate_backup_removal sampleEnv sampleRelease sampleFS _ _ samplePath
    (by decide) rfl rfl rfl).1 _ _ rfl rfl

/-! ## C12: a failed rollback is escalated -/

theorem performUpdate_events_of_replace_fail {env : Env} {release : GitHubRelease}
    {fs fs1 fs2 fs3 fs4 fs5 : FS} {L : Path} {be re : Option CopyErr} {e : CopyErr}
    (hurl : selectDownloadURL (assetNameFor env.goos env.arch) release.Assets ≠ [])
    (hdl : downloadFile env (selectDownloadURL (assetNameFor env.goos env.arch) release.Assets)
      tempFile fs = (fs1, none))
    (hstage : osChmod env.stageChmodOk fs1 tempFile 0o755 = some fs2)
    (hexe : env.executable = some L)
    (hbackup : copyFile env.umask env.backup fs2 L (backupPathOf L) = (fs3, be))
    (hreplace : copyFile env.umask env.replace fs3 tempFile L = (fs4, some e))
    (hrollback : copyFile env.umask env.rollback fs4 (backupPathOf L) L = (fs5, re)) :
    (performUpdate env release fs).events =
      (match be with
        | some b => [Event.log (.warnBackup b)]
        | none => []) ++
      (match re with
        | some r => [Event.log (.criticalRestore r)]
        | none => []) := by
  unfold performUpdate
  simp only [hurl, if_false, hdl, hstage, hexe, hbackup, hreplace, hrollback]
  cases be <;> cases re <;> rfl

/-- A critical line is logged only by a `performUpdate` that returns the
replace error. -/
theorem performUpdate_critical_only_after_replace_failure (env : Env)
    (release : GitHubRelease) (fs : FS) (rb : CopyErr)
    (h : Event.log (.criticalRestore rb) ∈ (performUpdate env release fs).events) :
    ∃ e, (performUpdate env release fs).err = some (.replaceBinary e) := by
  unfold performUpdate at h ⊢
  simp only at h ⊢
  split
  · rename_i hurl
    simp [hurl] at h
  · rename_i hurl
    simp only [hurl, if_false] at h
    split
    · rename_i hd
      simp [hd] at h
    · rename_i fs1 hd
      simp only [hd] at h
      split
      · rename_i hc
        simp [hc] at h
      · rename_i fs2 hc
        simp only [hc] at h
        split
        · rename_i hx
          simp [hx] at h
        · rename_i L hx
          simp only [hx] at h
          cases hb : copyFile env.umask env.backup fs2 L (backupPathOf L) with
          | mk fs3 be =>
            simp only [hb] at h ⊢
            cases hr : copyFile env.umask env.replace fs3 tempFile L with
            | mk fs4 re =>
              cases re with
              | some e => exact ⟨e, rfl⟩
              | none =>
                simp only [hr] at h
                cases be <;> simp at h

/-- C12: when the Replace copy fails, `performUpdate` runs one rollback copy
`B -> L` on what Replace left behind and returns the replace error. A critical
line is logged exactly when that rollback copy failed (and on no other path of
`performUpdate`), so the reported outcome, returned error together with log
output, differs from that of every run that logged no critical line, in
particular from a Replace failure whose rollback succeeded. -/
theorem performUpdate_rollback_escalation (env : Env) (release : GitHubRelease)
    (fs fs1 fs2 fs3 fs4 fs5 : FS) (L : Path) (be re : Option CopyErr) (e : CopyErr)
    (hurl : selectDownloadURL (assetNameFor env.goos env.arch) release.Assets ≠ [])
    (hdl : downloadFile env (selectDownloadURL (assetNameFor env.goos env.arch) release.Assets)
      tempFile fs = (fs1, none))
    (hstage : osChmod env.stageChmodOk fs1 tempFile 0o755 = some fs2)
    (hexe : env.executable = some L)
    (hbackup : copyFile env.umask env.backup fs2 L (backupPathOf L) = (fs3, be))
    (hreplace : copyFile env.umask env.replace fs3 tempFile L = (fs4, some e))
    (hrollback : copyFile env.umask env.rollback fs4 (backupPathOf L) L = (fs5, re)) :
    (performUpdate env release fs).fs = fs5 ∧
      (performUpdate env release fs).err = some (.replaceBinary e) ∧
      (performUpdate env release fs).events =
        (match be with
          | some b => [Event.log (.warnBackup b)]
          | none => []) ++
        (match re with
          | some r => [Event.log (.criticalRestore r)]
          | none => []) ∧
      ((∃ rb, Event.log (.criticalRestore rb) ∈ (performUpdate env release fs).events) ↔
        re ≠ none) ∧
      (re ≠ none → ∀ (env2 : Env) (release2 : GitHubRelease) (fsb : FS),
        (¬ ∃ rb, Event.log (.criticalRestore rb) ∈ (performUpdate env2 release2 fsb).events) →
        ((performUpdate env release fs).err, (performUpdate env release fs).events) ≠
          ((performUpdate env2 release2 fsb).err, (performUpdate env2 release2 fsb).events)) ∧
      (∀ (env2 : Env) (release2 : GitHubRelease) (fsb : FS),
        (∃ rb, Event.log (.criticalRestore rb) ∈ (performUpdate env2 release2 fsb).events) →
        ∃ e2, (performUpdate env2 release2 fsb).err = some (.replaceBinary e2)) := by
  have hrep2 : copyFile env.umask env.replace
      (copyFile env.umask env.backup fs2 L (backupPathOf L)).1 tempFile L =
        (fs4, some e) := by
    rw [hbackup]; exact hreplace
  obtain ⟨herr, hfs⟩ := performUpdate_eq_of_replace_fail hurl hdl hstage hexe hrep2
  have hev := performUpdate_events_of_replace_fail hurl hdl hstage hexe hbackup hreplace
    hrollback
  have hiff : (∃ rb, Event.log (.criticalRestore rb) ∈ (performUpdate env release fs).events) ↔
      re ≠ none := by
    rw [hev]
    cases be <;> cases re <;> simp
  refine ⟨by rw [hfs, hrollback], herr, hev, hiff, ?_, ?_⟩
  · intro hre env2 release2 fsb hno heq
    obtain ⟨rb, hrb⟩ := hiff.mpr hre
    have h2 : (performUpdate env release fs).events =
        (performUpdate env2 release2 fsb).events := congrArg Prod.snd heq
    exact hno ⟨rb, h2 ▸ hrb⟩
  · rintro env2 release2 fsb ⟨rb, hrb⟩
    exact performUpdate_critical_only_after_replace_failure env2 release2 fsb rb hrb

/-- C12 on the sample host whose Replace and rollback both fail: the replace
error is returned and the critical line is the only one logged. -/
theorem performUpdate_rollback_escalation_witness :
    (performUpdate rollbackFailsEnv sampleRelease sampleFS).err =
        some (.replaceBinary .copy) ∧
      ((∃ rb, Event.log (.criticalRestore rb) ∈
          (performUpdate rollbackFailsEnv sampleRelease sampleFS).events) ↔
        some CopyErr.createDst ≠ none) ∧
      ((performUpdate rollbackFailsEnv sampleRelease sampleFS).err,
          (performUpdate rollbackFailsEnv sampleRelease sampleFS).events) ≠
        ((performUpdate midCopyEnv sampleRelease sampleFS).err,
          (performUpdate midCopyEnv sampleRelease sampleFS).events) :=
  ⟨(performUpdate_rollback_escalation rollbackFailsEnv sampleRelease sampleFS _ _ _ _ _
      samplePath none (some .createDst) .copy (by decide) rfl rfl rfl rfl rfl rfl).2.1,
    (performUpdate_rollback_escalation rollbackFailsEnv sampleRelease sampleFS _ _ _ _ _
      samplePath none (some .createDst) .copy (by decide) rfl rfl rfl rfl rfl rfl).2.2.2.1,
    (performUpdate_rollback_escalation rollbackFailsEnv sampleRelease sampleFS _ _ _ _ _
      samplePath none (some .createDst) .copy (by decide) rfl rfl rfl rfl rfl rfl).2.2.2.2.1
      (by decide) midCopyEnv sampleRelease sampleFS
      (by
        rintro ⟨rb, h⟩
        have hev : (performUpdate midCopyEnv sampleRelease sampleFS).events = [] := by decide
        rw [hev] at h
        cases h)⟩

/-! ## Facts about `strings.Index` with a one-character needle -/

theorem hasPrefix_nil (s : GoString) : hasPrefix s [] = true := by
  cases s <;> rfl

theorem hasPrefix_cons_singleton (x : Char) (s : GoString) (c : Char) :
    hasPrefix (x :: s) [c] = (x == c) := by
  simp [hasPrefix, hasPrefix_nil]

theorem stringsIndex_singleton_none (s : GoString) (c : Char) :
    stringsIndex s [c] = none ↔ c ∉ s := by
  induction s with
  | nil => simp [stringsIndex, hasPrefix]
  | cons x s ih =>
    unfold stringsIndex
    rw [hasPrefix_cons_singleton]
    by_cases hx : x = c
    · simp [hx]
    · have hxc : (x == c) = false := by simpa using hx
      have hcx : ¬ c = x := fun h => hx h.symm
      simp [hxc, ih, hcx]

/-- A found index splits the string at its first occurrence of the character. -/
theorem stringsIndex_singleton_some (s : GoString) (c : Char) (m : Nat)
    (h : stringsIndex s [c] = some m) :
    s = s.take m ++ c :: s.drop (m + 1) ∧ c ∉ s.take m := by
  induction s generalizing m with
  | nil => simp [stringsIndex, hasPrefix] at h
  | cons x s ih =>
    unfold stringsIndex at h
    rw [hasPrefix_cons_singleton] at h
    by_cases hx : x = c
    · subst hx
      simp at h
      subst h
      simp
    · have hxc : (x == c) = false := by simpa using hx
      simp only [hxc, Bool.false_eq_true, if_false, Option.map_eq_some'] at h
      obtain ⟨k, hk, rfl⟩ := h
      obtain ⟨h1, h2⟩ := ih k hk
      refine ⟨?_, ?_⟩
      · simp only [List.take_succ_cons, List.drop_succ_cons, List.cons_append]
        rw [← h1]
      · simp only [List.take_succ_cons, List.mem_cons, not_or]
        exact ⟨fun h => hx h.symm, h2⟩

/-- The index of a character is the length of any text before it that is free
of that character. -/
theorem stringsIndex_singleton_of_split (pre post : GoString) (c : Char) (h : c ∉ pre) :
    stringsIndex (pre ++ c :: post) [c] = some pre.length := by
  induction pre with
  | nil =>
    unfold stringsIndex
    simp [hasPrefix_cons_singleton]
  | cons x pre ih =>
    have hx : ¬ x = c := fun hxc => h (by simp [hxc])
    have hxc : (x == c) = false := by simpa using hx
    have hpre : c ∉ pre := fun hc => h (List.mem_cons_of_mem _ hc)
    show stringsIndex (x :: (pre ++ c :: post)) [c] = _
    unfold stringsIndex
    rw [hasPrefix_cons_singleton]
    simp [hxc, ih hpre]

/-! ## C14: token parsing -/

theorem rootCmdRun_eq (token : GoString) :
    rootCmdRun token =
      match stringsIndex token [':'] with
      | none => .fatal .tokenFormat
      | some m =>
        if token.take m = [] then .fatal .emptyServerId
        else if token.drop (m + 1) = [] then .fatal .emptySecret
        else .runDaemon (token.take m) (token.drop (m + 1)) := by
  unfold rootCmdRun splitN2
  have hc : ":".toList = [':'] := rfl
  rw [hc]
  cases stringsIndex token [':'] with
  | none => simp
  | some m => simp

theorem rootCmdRun_runDaemon_iff (token sid sec : GoString) :
    rootCmdRun token = .runDaemon sid sec ↔
      (token = sid ++ ":".toList ++ sec ∧ ':' ∉ sid ∧ sid ≠ [] ∧ sec ≠ []) := by
  have hc : ":".toList = [':'] := rfl
  rw [rootCmdRun_eq, hc]
  constructor
  · intro h
    cases hi : stringsIndex token [':'] with
    | none => rw [hi] at h; cases h
    | some m =>
      rw [hi] at h
      simp only at h
      obtain ⟨hsplit, hfree⟩ := stringsIndex_singleton_some token ':' m hi
      split at h
      · cases h
      · rename_i hsid
        split at h
        · cases h
        · rename_i hsec
          cases h
          refine ⟨?_, hfree, hsid, hsec⟩
          simpa using hsplit
  · rintro ⟨htok, hfree, hsid, hsec⟩
    have htok2 : token = sid ++ ':' :: sec := by simpa using htok
    have hi : stringsIndex token [':'] = some sid.length := by
      rw [htok2]; exact stringsIndex_singleton_of_split sid sec ':' hfree
    rw [hi]
    have ht : token.take sid.length = sid := by rw [htok2]; simp
    have hd : token.drop (sid.length + 1) = sec := by
      rw [htok2]
      simp [List.drop_append_eq_append_drop]
    simp only [ht, hd, hsid, hsec, if_false]

/-- C14 (as stated, refuted): the token ":a:b" contains a ":" (its second)
whose preceding text ":a" and following text "b" are both non-empty, yet the
command is rejected with "Server ID cannot be empty" and `runDaemon` is not
called. -/
theorem token_with_leading_colon_rejected :
    ":a:b".toList = ":a".toList ++ ":".toList ++ "b".toList ∧
      ":a".toList ≠ [] ∧ "b".toList ≠ [] ∧
      rootCmdRun ":a:b".toList = .fatal .emptyServerId := by
  refine ⟨by decide, by decide, by decide, by decide⟩

/-- C14 (amended): `runDaemon` is called exactly when the token has a first
":" (one with no ":" before it) whose preceding text and following text are
both non-empty; it is then called with `ServerId` the text before that first
":" and `Secret` everything after it, so `ServerId` contains no ":",
`ServerId + ":" + Secret` is the token, and `Secret` may contain ":"; every
other token ends in a `log.Fatal` before `runDaemon`. -/
theorem rootCmdRun_token_spec (token : GoString) :
    ((∃ sid sec, rootCmdRun token = .runDaemon sid sec) ↔
        ∃ pre post, token = pre ++ ":".toList ++ post ∧ ':' ∉ pre ∧ pre ≠ [] ∧ post ≠ []) ∧
      (∀ sid sec, rootCmdRun token = .runDaemon sid sec ↔
        (token = sid ++ ":".toList ++ sec ∧ ':' ∉ sid ∧ sid ≠ [] ∧ sec ≠ [])) ∧
      ((¬ ∃ pre post, token = pre ++ ":".toList ++ post ∧ ':' ∉ pre ∧ pre ≠ [] ∧ post ≠ []) →
        ∃ msg, rootCmdRun token = .fatal msg) := by
  have hiff : (∃ sid sec, rootCmdRun token = .runDaemon sid sec) ↔
      ∃ pre post, token = pre ++ ":".toList ++ post ∧ ':' ∉ pre ∧ pre ≠ [] ∧ post ≠ [] := by
    constructor
    · rintro ⟨sid, sec, h⟩
      exact ⟨sid, sec, (rootCmdRun_runDaemon_iff token sid sec).mp h⟩
    · rintro ⟨pre, post, h⟩
      exact ⟨pre, post, (rootCmdRun_runDaemon_iff token pre post).mpr h⟩
  refine ⟨hiff, rootCmdRun_runDaemon_iff token, ?_⟩
  intro hno
  cases hr : rootCmdRun token with
  | fatal msg => exact ⟨msg, rfl⟩
  | runDaemon sid sec => exact absurd (hiff.mp ⟨sid, sec, hr⟩) hno

/-- The amended C14 on the token "7:a:b": the daemon is started with server
id "7" and secret "a:b". -/
theorem rootCmdRun_token_spec_witness :
    rootCmdRun "7:a:b".toList = .runDaemon "7".toList "a:b".toList :=
  ((rootCmdRun_token_spec "7:a:b".toList).2.1 "7".toList "a:b".toList).mpr
    ⟨by decide, by decide, by decide, by decide⟩

/-! ## C13: the main IP address -/

theorem firstAddress_eq_find (addrs : List InterfaceAddr) :
    firstAddress addrs = (addrs.map (fun a => stripCIDR a.Addr)).find? acceptsAddress := by
  induction addrs with
  | nil => rfl
  | cons a rest ih =>
    unfold firstAddress
    simp only [List.map_cons, List.find?_cons, acceptsAddress]
    rw [ih]
    generalize (stringsContains (stripCIDR a.Addr) ":".toList ||
      stripCIDR a.Addr == "127.0.0.1".toList) = b
    generalize (stripCIDR a.Addr != []) = c
    cases b <;> cases c <;> simp

/-- What `getMainIPAddress` computes: the first candidate address that passes
`acceptsAddress`, the empty string when there is none. -/
theorem scanInterfaces_eq_find (ifaces : List InterfaceStat) :
    scanInterfaces ifaces = ((candidateAddresses ifaces).find? acceptsAddress).getD [] := by
  induction ifaces with
  | nil => rfl
  | cons iface rest ih =>
    unfold scanInterfaces candidateAddresses
    by_cases hlo : (iface.Name == "lo".toList) = true
    · simp only [hlo, Bool.true_or, if_true, ih]
    · have hlo2 : (iface.Name == "lo".toList) = false := by simpa using hlo
      simp only [hlo2, Bool.false_or, Bool.false_eq_true, if_false, List.find?_append]
      by_cases hlen : (iface.Addrs.length == 0) = true
      · have hnil : iface.Addrs = [] := by
          have : iface.Addrs.length = 0 := by simpa using hlen
          exact List.length_eq_zero.mp this
        simp [hnil, ih]
      · simp only [hlen, Bool.false_eq_true, if_false, firstAddress_eq_find]
        cases hf : List.find? acceptsAddress
            (List.map (fun a => stripCIDR a.Addr) iface.Addrs) with
        | none => simp [ih]
        | some ip => simp

theorem stripCIDR_no_slash (ip : GoString) : '/' ∉ stripCIDR ip := by
  unfold stripCIDR
  have hc : "/".toList = ['/'] := rfl
  rw [hc]
  cases h : stringsIndex ip ['/'] with
  | none => exact (stringsIndex_singleton_none ip '/').mp h
  | some idx => exact (stringsIndex_singleton_some ip '/' idx h).2

theorem candidateAddresses_no_slash (ifaces : List InterfaceStat) :
    ∀ c ∈ candidateAddresses ifaces, '/' ∉ c := by
  induction ifaces with
  | nil => intro c hc; cases hc
  | cons iface rest ih =>
    intro c hc
    unfold candidateAddresses at hc
    split at hc
    · exact ih c hc
    · rcases List.mem_append.mp hc with h | h
      · obtain ⟨a, _, rfl⟩ := List.mem_map.mp h
        exact stripCIDR_no_slash a.Addr
      · exact ih c h

theorem acceptsAddress_true (ip : GoString) (h : acceptsAddress ip = true) :
    ':' ∉ ip ∧ ip ≠ "127.0.0.1".toList ∧ ip ≠ [] := by
  unfold acceptsAddress stringsContains at h
  have hc : ":".toList = [':'] := rfl
  rw [hc] at h
  simp only [Bool.and_eq_true, Bool.not_eq_true', Bool.or_eq_false_iff, bne_iff_ne, ne_eq,
    beq_eq_false_iff_ne] at h
  have hnone : stringsIndex ip [':'] = none := by
    cases hi : stringsIndex ip [':'] with
    | none => rfl
    | some m => rw [hi] at h; exact absurd h.1.1 (by simp)
  exact ⟨(stringsIndex_singleton_none ip ':').mp hnone, h.1.2, h.2⟩

/-- What holds of `getMainIPAddress` on every list of interfaces: it returns
the first candidate address, in interface order and then address order, that
contains no ":", is not the text "127.0.0.1" and is not empty; the result
contains neither "/" nor ":", is not "127.0.0.1", and is empty exactly when no
candidate passes the test. -/
theorem getMainIPAddress_properties (ifaces : List InterfaceStat) :
    getMainIPAddress (some ifaces) =
        ((candidateAddresses ifaces).find? acceptsAddress).getD [] ∧
      '/' ∉ getMainIPAddress (some ifaces) ∧
      ':' ∉ getMainIPAddress (some ifaces) ∧
      getMainIPAddress (some ifaces) ≠ "127.0.0.1".toList ∧
      (getMainIPAddress (some ifaces) = [] ↔
        ∀ c ∈ candidateAddresses ifaces, acceptsAddress c = false) := by
  have heq : getMainIPAddress (some ifaces) =
      ((candidateAddresses ifaces).find? acceptsAddress).getD [] :=
    scanInterfaces_eq_find ifaces
  refine ⟨heq, ?_⟩
  rw [heq]
  cases hf : (candidateAddresses ifaces).find? acceptsAddress with
  | none =>
    refine ⟨by simp, by simp, by decide, ?_⟩
    simp only [Option.getD_none, true_iff]
    intro c hc
    have := List.find?_eq_none.mp hf c hc
    simpa using this
  | some ip =>
    have hacc : acceptsAddress ip = true := List.find?_some hf
    have hmem : ip ∈ candidateAddresses ifaces := List.mem_of_find?_eq_some hf
    obtain ⟨h1, h2, h3⟩ := acceptsAddress_true ip hacc
    refine ⟨candidateAddresses_no_slash ifaces ip hmem, h1, h2, ?_⟩
    simp only [Option.getD_some]
    constructor
    · intro h; exact absurd h h3
    · intro h
      have := h ip hmem
      rw [hacc] at this
      cases this

/-- C13 (the code at the failing input): on a host whose loopback interface
is named `lo0` and carries the addresses 127.0.0.1/8, ::1/128 and 127.0.0.2/8,
`getMainIPAddress` returns the loopback address 127.0.0.2, while on the usual
Linux host it returns the first IPv4 address of `eth0`. -/
theorem getMainIPAddress_returns_loopback_alias :
    getMainIPAddress (some loopbackAliasInterfaces) = "127.0.0.2".toList ∧
      isLoopbackIPv4 (getMainIPAddress (some loopbackAliasInterfaces)) = true ∧
      getMainIPAddress (some linuxInterfaces) = "192.168.1.7".toList := by
  refine ⟨by decide, by decide, by decide⟩

end Uppi
